import Mathlib

/-!
Verification development for the basef path-pattern matcher and pub/sub bus.

The definitions below are a shallow embedding of the TypeScript sources:
`pathSegment.ts` (segment parser), `segmentMatcher.ts` (segment matcher),
the `BasePathMatcher` class (pattern matcher) and the `BasePubSub` class
(dispatcher).  JavaScript strings are Lean `String`s, JS `undefined` is
`Option.none`, thrown exceptions are `Except.error`, and the cooperative
event loop (the `setImmediate`-based `tick()` of `@basef/utils`) is a FIFO
task queue processed by an explicit small-step scheduler.

Character classes (`[a-z0-9]`) are modelled by an explicit parser for class
bodies made of literal characters and ranges, with the `i` flag modelled as
ASCII case folding; bodies using backslash escapes are treated as outside
the model (the parser rejects them), which matches the concrete classes the
repository uses and keeps `new RegExp` failure (e.g. an out-of-order range
such as `z-a`) observable as `Except.error`.
-/

namespace Basef

/-! ## Strings: the JS primitives used by `normalizePath` -/

/-- Model of JS whitespace for `String.prototype.trim` (ASCII subset). -/
def isWS (c : Char) : Bool :=
  c = ' ' || c = '\t' || c = '\n' || c = '\r'

/-- Model of `s.trim()` on the character list. -/
def jsTrimL (l : List Char) : List Char :=
  ((l.dropWhile isWS).reverse.dropWhile isWS).reverse

/-- Model of `s.trim()`. -/
def jsTrim (s : String) : String :=
  ⟨jsTrimL s.data⟩

/-- Model of `s.toLowerCase()` (ASCII case folding), kept structural so that
the kernel can evaluate it. -/
def jsToLower (s : String) : String :=
  ⟨s.data.map Char.toLower⟩

/-- Model of `s.startsWith(p)`, kept structural. -/
def jsStartsWith (s p : String) : Bool :=
  p.data.isPrefixOf s.data

/-- Model of `s.endsWith(p)`, kept structural. -/
def jsEndsWith (s p : String) : Bool :=
  p.data.isSuffixOf s.data

/-- Model of `s.split(sep)` for a single-character separator, on lists. -/
def splitCharL (sep : Char) : List Char → List (List Char)
  | [] => [[]]
  | c :: cs =>
    match splitCharL sep cs with
    | [] => [[]]
    | piece :: rest =>
      if c = sep then [] :: piece :: rest else (c :: piece) :: rest

/-- Model of `s.split(sep)` for a single-character separator. -/
def jsSplit (sep : Char) (s : String) : List String :=
  (splitCharL sep s.data).map fun l => ⟨l⟩

/-- Model of `array.join("/")`. -/
def joinSlash : List String → String
  | [] => ""
  | [s] => s
  | s :: rest => s ++ "/" ++ joinSlash rest

/-- The normalized fragment list of a path: the code's
`path.toLowerCase().split('/').map(s => s.trim()).filter(s => !!s)`. -/
def normFrags (path : String) : List String :=
  ((jsSplit '/' (jsToLower path)).map jsTrim).filter fun s => s ≠ ""

/-- `BasePathMatcher.normalizePath`:
`'/' + path.toLowerCase().split('/').map(trim).filter(nonempty).join('/')`. -/
def normalizePath (path : String) : String :=
  "/" ++ joinSlash (normFrags path)

/-- `BasePathMatcher.getSegments`: `normalizePath(path).split('/').slice(1)`. -/
def getSegments (path : String) : List String :=
  (jsSplit '/' (normalizePath path)).drop 1

/-! ## Character classes: model of `new RegExp("^[" + body + "]+$", "i")` -/

/-- One item of a character class body: a literal or a range `lo-hi`. -/
inductive ClassItem where
  | lit (c : Char)
  | rng (lo hi : Char)
  deriving DecidableEq, Repr

/-- Parse a class body into items.  A reversed range (`z-a`) is invalid, as
in JS where `new RegExp` throws; a backslash is rejected as outside the
model. -/
def parseItems : List Char → Option (List ClassItem)
  | [] => some []
  | a :: '-' :: b :: rest =>
    if a = '\\' || b = '\\' then none
    else if a.val ≤ b.val then
      (parseItems rest).map fun is => ClassItem.rng a b :: is
    else none
  | a :: rest =>
    if a = '\\' then none
    else (parseItems rest).map fun is => ClassItem.lit a :: is

/-- A parsed character class: an optional leading `^` negation plus items. -/
structure ClassSpec where
  neg : Bool
  items : List ClassItem
  deriving DecidableEq, Repr

/-- Parse a full class body, handling a leading `^`. -/
def parseClassBody (body : List Char) : Option ClassSpec :=
  match body with
  | '^' :: rest => (parseItems rest).map fun is => ⟨true, is⟩
  | _ => (parseItems body).map fun is => ⟨false, is⟩

/-- ASCII case toggle, modelling the `i` flag's canonicalization. -/
def flipCase (c : Char) : Char :=
  if c.isLower then c.toUpper else if c.isUpper then c.toLower else c

/-- Does a character match one class item (case-insensitively)? -/
def itemMatches (c : Char) : ClassItem → Bool
  | .lit m => c = m || flipCase c = m
  | .rng lo hi =>
    (lo.val ≤ c.val && c.val ≤ hi.val) ||
    (lo.val ≤ (flipCase c).val && (flipCase c).val ≤ hi.val)

/-- Does a character match the class? -/
def classMatchesChar (spec : ClassSpec) (c : Char) : Bool :=
  let b := spec.items.any (itemMatches c)
  if spec.neg then !b else b

/-- `SegmentMatcher.inBracketRange(value, rangeExpr)`: strips the enclosing
brackets and tests `^[body]+$` with the `i` flag.  `.error` models the
`SyntaxError` thrown by `new RegExp` on an invalid body. -/
def inBracketRange (value : String) (rangeExpr : String) : Except Unit Bool :=
  let body := (rangeExpr.data.drop 1).dropLast
  match parseClassBody body with
  | none => .error ()
  | some spec =>
    .ok (!value.data.isEmpty && value.data.all (classMatchesChar spec))

/-! ## Segment parser: `PathSegment.parse` -/

inductive SegType where
  | static | param | wildcard
  deriving DecidableEq, Repr

/-- The `PathSegmentData` record of `pathSegment.ts`. -/
structure PathSegmentData where
  segmentType : SegType := .static
  name : Option String := none
  range : Option String := none
  optional : Bool := false
  single : Bool := false
  multi : Bool := false
  multiString : Bool := false
  deriving DecidableEq, Repr

/-- `PathSegment.applySuffix`: the switch over the suffix plus the trailing
"default to single" fix-up. -/
def applySuffix (d : PathSegmentData) (suffix : String) :
    Except String PathSegmentData := do
  let d ←
    if suffix = "+" then pure { d with multiString := true }
    else if suffix = "?" then pure { d with optional := true }
    else if suffix = "*" then pure { d with single := true }
    else if suffix = "**" then pure { d with multi := true }
    else if suffix = "" then
      pure (if d.segmentType = .param || d.segmentType = .wildcard then
        { d with single := true } else d)
    else Except.error ("Unknown suffix: " ++ suffix)
  pure (if (d.segmentType = .param || d.segmentType = .wildcard)
      && !d.optional && !d.multi && !d.multiString && !d.single then
    { d with single := true } else d)

/-- The bracket group `(\[[^\]]+\])(.*)` of the parser's regexes: a bracket
with a non-empty `]`-free body, returning the bracket text and the suffix. -/
def takeBracket (l : List Char) : Option (String × String) :=
  match l with
  | '[' :: rest =>
    let body := rest.takeWhile fun c => c ≠ ']'
    match rest.dropWhile (fun c => c ≠ ']') with
    | ']' :: suffix =>
      if body.isEmpty then none
      else some (⟨'[' :: (body ++ [']'])⟩, ⟨suffix⟩)
    | _ => none
  | _ => none

/-- One alternative of `^(\*\*|\*|\+|\?)(\[[^\]]+\])(.*)$`. -/
def trySymRange (sym : String) (l : List Char) :
    Option (String × String × String) :=
  if sym.data.isPrefixOf l then
    (takeBracket (l.drop sym.length)).map fun p => (sym, p.1, p.2)
  else none

/-- The regex `^(\*\*|\*|\+|\?)(\[[^\]]+\])(.*)$`, alternatives in order. -/
def tryWildcardRange (l : List Char) : Option (String × String × String) :=
  trySymRange "**" l <|> trySymRange "*" l <|>
    trySymRange "+" l <|> trySymRange "?" l

/-- `PathSegment.parseParam` on the text after the leading `:`. -/
def parseParamCore (core : String) : Except String PathSegmentData := do
  let base : PathSegmentData := { segmentType := .param }
  if core.data.contains '[' then
    let namePart : List Char := core.data.takeWhile fun c => c ≠ '['
    if namePart.isEmpty then
      Except.error ("Invalid param syntax. Missing name before bracket: :" ++ core)
    else
      let fromBracket := core.data.dropWhile fun c => c ≠ '['
      let upto := fromBracket.takeWhile fun c => c ≠ ']'
      match fromBracket.dropWhile (fun c => c ≠ ']') with
      | ']' :: suffix =>
        let d := { base with name := some ⟨namePart⟩,
                             range := some ⟨upto ++ [']']⟩ }
        applySuffix d ⟨suffix⟩
      | _ => Except.error ("Invalid bracket expression in param: :" ++ core)
  else
    let (suffix, name) :=
      if jsEndsWith core "**" then ("**", ⟨core.data.dropLast.dropLast⟩)
      else if jsEndsWith core "+" then ("+", ⟨core.data.dropLast⟩)
      else if jsEndsWith core "?" then ("?", ⟨core.data.dropLast⟩)
      else if jsEndsWith core "*" then ("*", (⟨core.data.dropLast⟩ : String))
      else ("", core)
    let d ← applySuffix base suffix
    if name = "" then Except.error ("Invalid param syntax: :" ++ core)
    else pure { d with name := some name }

/-- `PathSegment.isStandaloneWildcard`. -/
def isStandaloneWildcard (s : String) : Bool :=
  s = "*" || s = "**" || s = "?" || s = "+"

/-- `PathSegment.parse`: classify one raw segment. -/
def parseSegment (rawSegment : String) : Except String PathSegmentData :=
  let seg := jsTrim rawSegment
  if seg = "" then Except.error "Empty segment is not allowed."
  else if jsStartsWith seg ":" then parseParamCore ⟨seg.data.drop 1⟩
  else
    match tryWildcardRange seg.data with
    | some (sym, rangePart, suffix) =>
      let base : PathSegmentData := { segmentType := .wildcard, range := some rangePart }
      let base :=
        if sym = "*" then { base with single := true }
        else if sym = "**" then { base with multi := true }
        else if sym = "+" then { base with multiString := true }
        else { base with optional := true }
      applySuffix base suffix
    | none =>
      if isStandaloneWildcard seg then
        let base : PathSegmentData := { segmentType := .wildcard }
        if seg = "*" then .ok { base with single := true }
        else if seg = "**" then .ok { base with multi := true }
        else if seg = "?" then .ok { base with optional := true }
        else .ok { base with multiString := true }
      else
        match takeBracket seg.data with
        | some (rangePart, suffix) =>
          applySuffix { segmentType := .wildcard, range := some rangePart } suffix
        | none => .ok { segmentType := .static }

/-- A parsed `PathSegment`: the original raw text plus the parsed data. -/
structure PathSegment where
  raw : String
  data : PathSegmentData
  deriving DecidableEq, Repr

/-- `new PathSegment(raw)`. -/
def PathSegment.make (raw : String) : Except String PathSegment :=
  (parseSegment raw).map fun d => ⟨raw, d⟩

/-! ## Segment matcher: `segmentMatcher.ts` -/

/-- A captured parameter value: `string | string[]`. -/
inductive Val where
  | str (s : String)
  | strList (l : List String)
  deriving DecidableEq, Repr

/-- `SegmentMatcher`: the fields copied from the `PathSegment`. -/
structure SegmentMatcher where
  raw : String
  segType : SegType
  name : Option String
  range : Option String
  optional : Bool
  single : Bool
  multi : Bool
  multiString : Bool
  deriving DecidableEq, Repr

/-- `new SegmentMatcher(segment)`. -/
def SegmentMatcher.ofSegment (s : PathSegment) : SegmentMatcher :=
  ⟨s.raw, s.data.segmentType, s.data.name, s.data.range,
    s.data.optional, s.data.single, s.data.multi, s.data.multiString⟩

/-- `SegmentMatchResult`: leftover segments plus optional captures. -/
structure SegmentMatchResult where
  leftover : List String
  paramName : Option String := none
  paramValue : Option Val := none
  wildcard : Option (List String) := none
  deriving DecidableEq, Repr

/-- The per-segment range loop of the multi matchers: first failing segment
stops with `false`; an invalid class body raises on the first iteration. -/
def checkAllRange (range : String) : List String → Except Unit Bool
  | [] => .ok true
  | s :: rest => do
    let b ← inBracketRange s range
    if b then checkAllRange range rest else .ok false

/-- The `if (this.range && !this.inBracketRange(first, this.range))` guard. -/
def rangeRejects (m : SegmentMatcher) (s : String) : Except Unit Bool :=
  match m.range with
  | none => .ok false
  | some r => do
    let b ← inBracketRange s r
    pure !b

/-- The same guard over all remaining segments (multi/multi-string loops). -/
def rangeRejectsAny (m : SegmentMatcher) (segs : List String) : Except Unit Bool :=
  match m.range with
  | none => .ok false
  | some r => do
    let b ← checkAllRange r segs
    pure !b

/-- `SegmentMatcher.matchStatic`. -/
def SegmentMatcher.matchStatic (m : SegmentMatcher) (segments : List String) :
    Option SegmentMatchResult :=
  match segments with
  | [] => none
  | first :: rest => if first = m.raw then some { leftover := rest } else none

/-- `SegmentMatcher.matchSingleParam`. -/
def SegmentMatcher.matchSingleParam (m : SegmentMatcher) (segments : List String) :
    Except Unit (Option SegmentMatchResult) :=
  match segments with
  | [] => .ok none
  | first :: rest => do
    if ← rangeRejects m first then pure none
    else pure (some { leftover := rest, paramName := m.name,
                      paramValue := some (.str first) })

/-- `SegmentMatcher.matchMultiParam` (`:foo**`). -/
def SegmentMatcher.matchMultiParam (m : SegmentMatcher) (segments : List String) :
    Except Unit (Option SegmentMatchResult) :=
  match segments with
  | [] => .ok none
  | _ :: _ => do
    if ← rangeRejectsAny m segments then pure none
    else pure (some { leftover := [], paramName := m.name,
                      paramValue := some (.strList segments) })

/-- `SegmentMatcher.matchMultiStringParam` (`:foo+`). -/
def SegmentMatcher.matchMultiStringParam (m : SegmentMatcher) (segments : List String) :
    Except Unit (Option SegmentMatchResult) :=
  match segments with
  | [] => .ok none
  | _ :: _ => do
    if ← rangeRejectsAny m segments then pure none
    else pure (some { leftover := [], paramName := m.name,
                      paramValue := some (.str (joinSlash segments)) })

/-- `SegmentMatcher.matchOptionalParam` (`:foo?`). -/
def SegmentMatcher.matchOptionalParam (m : SegmentMatcher) (segments : List String) :
    Except Unit (Option SegmentMatchResult) :=
  match segments with
  | [] => .ok (some { leftover := [] })
  | first :: rest => do
    if ← rangeRejects m first then pure (some { leftover := segments })
    else pure (some { leftover := rest, paramName := m.name,
                      paramValue := some (.str first) })

/-- `SegmentMatcher.matchParam`: dispatch on the modifier flags. -/
def SegmentMatcher.matchParam (m : SegmentMatcher) (segments : List String) :
    Except Unit (Option SegmentMatchResult) :=
  match m.name with
  | none => .ok none
  | some _ =>
    if m.single then m.matchSingleParam segments
    else if m.multi then m.matchMultiParam segments
    else if m.multiString then m.matchMultiStringParam segments
    else if m.optional then m.matchOptionalParam segments
    else .ok none

/-- `SegmentMatcher.matchSingleWildcard` (`*`). -/
def SegmentMatcher.matchSingleWildcard (m : SegmentMatcher) (segments : List String) :
    Except Unit (Option SegmentMatchResult) :=
  match segments with
  | [] => .ok none
  | first :: rest => do
    if ← rangeRejects m first then pure none
    else pure (some { leftover := rest, wildcard := some [first] })

/-- `SegmentMatcher.matchMultiWildcard` (`**`). -/
def SegmentMatcher.matchMultiWildcard (m : SegmentMatcher) (segments : List String) :
    Except Unit (Option SegmentMatchResult) :=
  match segments with
  | [] => .ok none
  | _ :: _ => do
    if ← rangeRejectsAny m segments then pure none
    else pure (some { leftover := [], wildcard := some segments })

/-- `SegmentMatcher.matchMultiStringWildcard` (`+`). -/
def SegmentMatcher.matchMultiStringWildcard (m : SegmentMatcher) (segments : List String) :
    Except Unit (Option SegmentMatchResult) :=
  match segments with
  | [] => .ok none
  | _ :: _ => do
    if ← rangeRejectsAny m segments then pure none
    else pure (some { leftover := [], wildcard := some [joinSlash segments] })

/-- `SegmentMatcher.matchOptionalWildcard` (`?`). -/
def SegmentMatcher.matchOptionalWildcard (m : SegmentMatcher) (segments : List String) :
    Except Unit (Option SegmentMatchResult) :=
  match segments with
  | [] => .ok (some { leftover := [] })
  | first :: rest => do
    if ← rangeRejects m first then pure (some { leftover := segments })
    else pure (some { leftover := rest, wildcard := some [first] })

/-- `SegmentMatcher.matchWildcard`: dispatch on the modifier flags. -/
def SegmentMatcher.matchWildcard (m : SegmentMatcher) (segments : List String) :
    Except Unit (Option SegmentMatchResult) :=
  if m.single then m.matchSingleWildcard segments
  else if m.multi then m.matchMultiWildcard segments
  else if m.multiString then m.matchMultiStringWildcard segments
  else if m.optional then m.matchOptionalWildcard segments
  else .ok none

/-- `SegmentMatcher.match`: dispatch on the segment type. -/
def SegmentMatcher.matchSeg (m : SegmentMatcher) (segments : List String) :
    Except Unit (Option SegmentMatchResult) :=
  match m.segType with
  | .static => .ok (m.matchStatic segments)
  | .param => m.matchParam segments
  | .wildcard => m.matchWildcard segments

/-- `SegmentMatcher.isOptional`. -/
def SegmentMatcher.isOptional (m : SegmentMatcher) : Bool := m.optional

/-! ## Pattern matcher: the `BasePathMatcher` class -/

/-- `PathMatchResult`: `{ path, params, wildcard, matched }`.  The params
record is an association list with JS object-assignment semantics. -/
structure PathMatchResult where
  path : String
  params : List (String × Val)
  wildcard : List String
  matched : Bool
  deriving DecidableEq, Repr

/-- JS `obj[key] = value` on the association-list object model: overwrite in
place if present, else append. -/
def objSet (o : List (String × Val)) (k : String) (v : Val) : List (String × Val) :=
  if o.any (fun p => p.1 = k) then
    o.map fun p => if p.1 = k then (k, v) else p
  else o ++ [(k, v)]

/-- JS `obj[key]` lookup. -/
def objGet (o : List (String × Val)) (k : String) : Option Val :=
  (o.find? fun p => p.1 = k).map Prod.snd

/-- The compiled `BasePathMatcher`. -/
structure BasePathMatcher where
  matchers : List SegmentMatcher
  pattern : String
  isRoot : Bool
  deriving DecidableEq, Repr

/-- `BasePathMatcher.parsePattern`. -/
def parsePattern (pattern : String) : Except String (List PathSegment) :=
  if pattern = "/" then (PathSegment.make "/").map fun s => [s]
  else (getSegments pattern).mapM PathSegment.make

/-- `BasePathMatcher.checkParams`: reject duplicate parameter names. -/
def checkParams : List SegmentMatcher → List String → Except String Unit
  | [], _ => .ok ()
  | m :: rest, seen =>
    if m.segType = .param then
      let n := m.name.getD ""
      if n ∈ seen then Except.error ("Duplicate parameter name: " ++ n)
      else checkParams rest (n :: seen)
    else checkParams rest seen

/-- `new BasePathMatcher(pattern)`. -/
def BasePathMatcher.construct (pattern : String) : Except String BasePathMatcher := do
  let segs ← parsePattern pattern
  let matchers := segs.map SegmentMatcher.ofSegment
  let normalized := normalizePath pattern
  let isRoot := normalized = "/"
  checkParams matchers []
  pure ⟨matchers, normalized, isRoot⟩

/-- The descriptor loop of `BasePathMatcher.match`: returns the overall
flag, accumulated params and wildcards, and the remaining segments. -/
def matchLoop : List SegmentMatcher → List String → List (String × Val) →
    List String → Except Unit (Bool × List (String × Val) × List String × List String)
  | [], rem, params, wc => .ok (true, params, wc, rem)
  | m :: rest, rem, params, wc =>
    if rem.isEmpty then
      if m.isOptional then matchLoop rest rem params wc
      else .ok (false, params, wc, rem)
    else do
      match ← m.matchSeg rem with
      | none => .ok (false, params, wc, rem)
      | some r =>
        let params :=
          match r.paramName, r.paramValue with
          | some n, some v => if n ≠ "" then objSet params n v else params
          | _, _ => params
        let wc := match r.wildcard with | some w => wc ++ w | none => wc
        matchLoop rest r.leftover params wc

/-- `BasePathMatcher.match(uri)`.  `.error` models an exception escaping the
match (a `SyntaxError` from `inBracketRange`). -/
def BasePathMatcher.matchPath (bm : BasePathMatcher) (uri : String) :
    Except Unit PathMatchResult :=
  if bm.isRoot && normalizePath uri = "/" then
    .ok ⟨"/", [], [], true⟩
  else do
    let uriSegments := getSegments uri
    let (flag, params, wc, leftover) ← matchLoop bm.matchers uriSegments [] []
    let isMatched := flag && leftover.isEmpty
    pure ⟨"/" ++ joinSlash uriSegments,
      if isMatched then params else [],
      if isMatched then wc else [],
      isMatched⟩

/-! ## The pub/sub dispatcher: `BasePubSub`

`pub` is an `async` method whose suspension points are `await tick()` calls;
`tick()` resolves on a `setImmediate` callback, so the event loop is a FIFO
queue of macrotasks.  Each pending continuation of `pub`, of a dispatch
closure, or of a handler body is one `Task`; promise reactions (the
`Promise.all` completion and `.catch` callbacks) are microtasks that drain
inside the macrotask that resolves them, so they are folded into the task
that triggers them.  Handlers supplied by callers are modelled by the small
`HandlerSpec` language covering the shapes the test-suite handlers take. -/

/-- The argument object passed to handlers (`BasePubSubArgs`). -/
abbrev Args := List (String × Val)

/-- Test-handler behaviours: settle immediately, settle after one tick,
reject, or synchronously subscribe a new (immediate) subscription. -/
inductive HandlerSpec where
  | immediate
  | afterTick
  | throwing
  | subscribing (pattern : String)
  deriving DecidableEq, Repr

/-- The `Subscription` record of `pubsub/mod.ts`. -/
structure Subscription where
  id : Nat
  topic : String
  matcher : BasePathMatcher
  handler : HandlerSpec
  once : Bool
  matchedTopics : List (String × Args)
  deriving DecidableEq, Repr

/-- The `SubscriptionMatch` record produced by `filterSubs`. -/
structure SubscriptionMatch where
  subscription : Subscription
  matched : Bool
  params : Option Args := none
  wildcard : Option (List String) := none
  deriving DecidableEq, Repr

/-- `Map.get` on the per-subscription memo. -/
def memoGet (memo : List (String × Args)) (topic : String) : Option Args :=
  (memo.find? fun p => p.1 = topic).map Prod.snd

/-- The body of the `map` in `BasePubSub.filterSubs`: consult the memo, else
run the matcher (which may throw). -/
def filterSubsMap (topic : String) (s : Subscription) :
    Except Unit SubscriptionMatch :=
  match memoGet s.matchedTopics topic with
  | some cached => .ok ⟨s, true, some cached, none⟩
  | none => do
    let r ← s.matcher.matchPath topic
    pure ⟨s, r.matched, some r.params, some r.wildcard⟩

/-- `BasePubSub.filterSubs(topic)`: map over the subscription set in
insertion order, keep the matches. -/
def filterSubs (subs : List Subscription) (topic : String) :
    Except Unit (List SubscriptionMatch) := do
  let ms ← subs.mapM (filterSubsMap topic)
  pure (ms.filter fun m => m.matched)

/-- JS object spread `{ ...o, ...add }` restricted to our value type. -/
def spreadInto (o : Args) (add : Args) : Args :=
  add.foldl (fun acc kv => objSet acc kv.1 kv.2) o

/-- `const fullArgs = { ...args, ...(m.params || {}), _: m.wildcard || [], topic }`. -/
def buildFullArgs (userArgs : Args) (params : Option Args)
    (wildcard : Option (List String)) (topic : String) : Args :=
  let o := spreadInto [] userArgs
  let o := spreadInto o (params.getD [])
  let o := objSet o "_" (.strList (wildcard.getD []))
  objSet o "topic" (.str topic)

/-- Observable events of a run, in the order they happen. -/
inductive Event where
  | pubStarted (pid : Nat)
  | pubMatched (pid : Nat) (sids : List Nat)
  | invoked (sid pid : Nat) (args : Args)
  | settledOk (sid pid : Nat)
  | errorLogged (sid pid : Nat)
  | pubDone (pid : Nat)
  | pubThrew (pid : Nat)
  | subAdded (sid : Nat)
  deriving DecidableEq, Repr

/-- Macrotasks: the continuation of `pub` after its first `await tick()`,
one dispatch closure per match after its own `await tick()`, and the
continuation of an `afterTick` handler body. -/
inductive Task where
  | pubCont (pid : Nat) (topic : String) (args : Args)
  | dispatch (pid : Nat) (m : SubscriptionMatch) (topic : String) (args : Args)
  | handlerCont (sid pid : Nat)
  deriving DecidableEq, Repr

/-- The bus state: the static `subscriptions` set (insertion-ordered), the
static `_inflightCount`, the macrotask queue, the per-publication count of
dispatch closures `Promise.all` is still waiting on, the event log, and the
id counters. -/
structure PSState where
  subs : List Subscription
  inflightCount : Int
  queue : List Task
  pending : List (Nat × Nat)
  log : List Event
  nextSubId : Nat
  nextPubId : Nat
  deriving DecidableEq, Repr

def initState : PSState := ⟨[], 0, [], [], [], 0, 0⟩

/-- `BasePubSub.sub(topic, handler, once)`: compile the pattern (which can
throw), build the record with an empty memo, insert into the set. -/
def subAddCore (pattern : String) (h : HandlerSpec) (once : Bool)
    (s : PSState) : Except String PSState :=
  match BasePathMatcher.construct pattern with
  | .error e => .error e
  | .ok bm =>
    .ok { s with
      subs := s.subs ++ [⟨s.nextSubId, pattern, bm, h, once, []⟩],
      nextSubId := s.nextSubId + 1,
      log := s.log ++ [.subAdded s.nextSubId] }

/-- The synchronous part of `BasePubSub.pub`: increment `_inflightCount`,
then suspend on the first `await tick()` (enqueue the continuation). -/
def pubStart (topic : String) (args : Args) (s : PSState) : PSState :=
  { s with
    inflightCount := s.inflightCount + 1,
    queue := s.queue ++ [.pubCont s.nextPubId topic args],
    nextPubId := s.nextPubId + 1,
    log := s.log ++ [.pubStarted s.nextPubId] }

def pendingGet : List (Nat × Nat) → Nat → Option Nat
  | [], _ => none
  | q :: rest, pid => if q.1 = pid then some q.2 else pendingGet rest pid

/-- One dispatch closure resolved: `Promise.all` has one fewer promise to
wait for; when the last one resolves, `pub` resumes in the same macrotask
(a microtask), decrements `_inflightCount` and its promise settles. -/
def finishDispatch (pid : Nat) (s : PSState) : PSState :=
  match pendingGet s.pending pid with
  | none => s
  | some k =>
    if k ≤ 1 then
      { s with
        pending := s.pending.filter fun q => q.1 ≠ pid,
        inflightCount := s.inflightCount - 1,
        log := s.log ++ [.pubDone pid] }
    else
      { s with pending := s.pending.map fun q => if q.1 = pid then (pid, k - 1) else q }

/-- Invoke a handler: its synchronous body runs now; an `afterTick` body
suspends and its continuation is enqueued; a rejection is consumed by the
attached `.catch(handleError)` which logs it. -/
def runHandler (h : HandlerSpec) (sid pid : Nat) (s : PSState) : PSState :=
  match h with
  | .immediate => { s with log := s.log ++ [.settledOk sid pid] }
  | .afterTick => { s with queue := s.queue ++ [.handlerCont sid pid] }
  | .throwing => { s with log := s.log ++ [.errorLogged sid pid] }
  | .subscribing pat =>
    match subAddCore pat .immediate false s with
    | .ok s' => { s' with log := s'.log ++ [.settledOk sid pid] }
    | .error _ => { s with log := s.log ++ [.errorLogged sid pid] }

/-- Run one macrotask. -/
def runTask (s : PSState) : Task → PSState
  | .pubCont pid topic args =>
    match filterSubs s.subs topic with
    | .error _ => { s with log := s.log ++ [.pubThrew pid] }
    | .ok ms =>
      let s := { s with
        log := s.log ++
          [Event.pubMatched pid (ms.map fun m : SubscriptionMatch => m.subscription.id)] }
      if ms.isEmpty then
        { s with inflightCount := s.inflightCount - 1, log := s.log ++ [Event.pubDone pid] }
      else
        { s with
          queue := s.queue ++ ms.map (fun m => Task.dispatch pid m topic args),
          pending := s.pending ++ [(pid, ms.length)] }
  | .dispatch pid m topic args =>
    let fullArgs := buildFullArgs args m.params m.wildcard topic
    let sid := m.subscription.id
    let s := { s with log := s.log ++ [.invoked sid pid fullArgs] }
    let s := runHandler m.subscription.handler sid pid s
    let s := if m.subscription.once then
      { s with subs := s.subs.filter fun t => t.id ≠ sid } else s
    finishDispatch pid s
  | .handlerCont sid pid => { s with log := s.log ++ [.settledOk sid pid] }

/-- One scheduler step: run the macrotask at the front of the queue. -/
def step (s : PSState) : PSState :=
  match s.queue with
  | [] => s
  | t :: rest => runTask { s with queue := rest } t

/-- Run the scheduler for `fuel` steps. -/
def runSched : Nat → PSState → PSState
  | 0, s => s
  | n + 1, s => runSched n (step s)

/-- A synchronous block of caller actions. -/
inductive Action where
  | sub (pattern : String) (h : HandlerSpec) (once : Bool)
  | pub (topic : String) (args : Args)
  deriving DecidableEq, Repr

/-- Execute a synchronous block; an exception from `sub` (invalid pattern)
aborts the rest of the block. -/
def execActions (s : PSState) : List Action → PSState
  | [] => s
  | .sub pat h once :: rest =>
    match subAddCore pat h once s with
    | .ok s' => execActions s' rest
    | .error _ => s
  | .pub topic args :: rest => execActions (pubStart topic args s) rest

/-- Execute phases of synchronous blocks; between phases the event loop
runs for `fuel` steps (modelling `await` on the issued publications). -/
def execProgram (phases : List (List Action)) (fuel : Nat) : PSState :=
  phases.foldl (fun s acts => runSched fuel (execActions s acts)) initState

/-! ## Observation helpers on logs, queues and pending counts -/

def isStartE : Event → Bool
  | .pubStarted _ => true
  | _ => false

def isDoneE : Event → Bool
  | .pubDone _ => true
  | _ => false

/-- Number of `pub` calls that have run their synchronous part. -/
def countStarts (log : List Event) : Nat := log.countP isStartE

/-- Number of `pub` calls whose returned promise has settled. -/
def countDones (log : List Event) : Nat := log.countP isDoneE

def isInvokedFor (sid pid : Nat) : Event → Bool
  | .invoked s p _ => s == sid && p == pid
  | _ => false

/-- How often publication `pid` invoked the handler of subscription `sid`. -/
def countInvokedFor (sid pid : Nat) (log : List Event) : Nat :=
  log.countP (isInvokedFor sid pid)

def isInvokedP (pid : Nat) : Event → Bool
  | .invoked _ p _ => p == pid
  | _ => false

/-- How many handler invocations publication `pid` performed. -/
def countInvokedP (pid : Nat) (log : List Event) : Nat :=
  log.countP (isInvokedP pid)

/-- The subscription snapshot publication `pid` took, if it has. -/
def matchedSids (pid : Nat) : List Event → Option (List Nat)
  | [] => none
  | .pubMatched p sids :: rest =>
    if p = pid then some sids else matchedSids pid rest
  | _ :: rest => matchedSids pid rest

def isDispatchFor (pid : Nat) : Task → Bool
  | .dispatch p _ _ _ => p == pid
  | _ => false

def isDispatchSub (pid sid : Nat) : Task → Bool
  | .dispatch p m _ _ => p == pid && m.subscription.id == sid
  | _ => false

def isPubContFor (pid : Nat) : Task → Bool
  | .pubCont p _ _ => p == pid
  | _ => false

/-- Pending dispatch closures of publication `pid` in the queue. -/
def dispatchCountFor (pid : Nat) (q : List Task) : Nat :=
  q.countP (isDispatchFor pid)

/-- Pending dispatch closures of publication `pid` targetting `sid`. -/
def dispatchCountSub (pid sid : Nat) (q : List Task) : Nat :=
  q.countP (isDispatchSub pid sid)

/-- Pending first-tick continuations of publication `pid`. -/
def pubContCountFor (pid : Nat) (q : List Task) : Nat :=
  q.countP (isPubContFor pid)

/-- Does an event mention publication `pid`? -/
def eventMentionsPub (pid : Nat) : Event → Bool
  | .pubStarted p => p == pid
  | .pubMatched p _ => p == pid
  | .invoked _ p _ => p == pid
  | .settledOk _ p => p == pid
  | .errorLogged _ p => p == pid
  | .pubDone p => p == pid
  | .pubThrew p => p == pid
  | .subAdded _ => false

/-- The publication a task belongs to. -/
def taskPid : Task → Nat
  | .pubCont p _ _ => p
  | .dispatch p _ _ _ => p
  | .handlerCont _ p => p

/-! ## Invariants of the dispatcher state machine -/

/-- Publication ids not yet allocated occur nowhere in the state. -/
def PidFresh (s : PSState) (pid : Nat) : Prop :=
  (∀ e ∈ s.log, eventMentionsPub pid e = false) ∧
  (∀ t ∈ s.queue, taskPid t ≠ pid) ∧
  pendingGet s.pending pid = none

/-- The life-cycle invariant of one allocated publication id: before the
snapshot its continuation is queued and nothing has run (phase A, or phase D
after `filterSubs` threw); after the snapshot the spawned dispatch closures
plus the performed invocations account exactly for the matched ids (phase
B); once the publication's promise settles, every matched subscription has
been invoked exactly once (phase C). -/
def PubPhase (s : PSState) (pid : Nat) : Prop :=
  match matchedSids pid s.log with
  | none =>
    dispatchCountFor pid s.queue = 0 ∧
    pendingGet s.pending pid = none ∧
    countInvokedP pid s.log = 0 ∧
    Event.pubDone pid ∉ s.log ∧
    (if Event.pubThrew pid ∈ s.log then
      pubContCountFor pid s.queue = 0
    else
      pubContCountFor pid s.queue = 1)
  | some sids =>
    pubContCountFor pid s.queue = 0 ∧
    Event.pubThrew pid ∉ s.log ∧
    if Event.pubDone pid ∈ s.log then
      dispatchCountFor pid s.queue = 0 ∧
      pendingGet s.pending pid = none ∧
      countInvokedP pid s.log = sids.length ∧
      (∀ sid, countInvokedFor sid pid s.log = sids.count sid)
    else
      pendingGet s.pending pid = some (dispatchCountFor pid s.queue) ∧
      1 ≤ dispatchCountFor pid s.queue ∧
      countInvokedP pid s.log + dispatchCountFor pid s.queue = sids.length ∧
      (∀ sid, countInvokedFor sid pid s.log + dispatchCountSub pid sid s.queue
        = sids.count sid)

/-- The global invariant: subscription ids are bounded and duplicate-free,
snapshots are duplicate-free, the in-flight counter equals the number of
publications between their synchronous increment and their settling
decrement, and every allocated publication id is in a legal phase. -/
structure Inv (s : PSState) : Prop where
  subIdsLt : ∀ t ∈ s.subs, t.id < s.nextSubId
  subIdsNodup : (s.subs.map Subscription.id).Nodup
  sidsNodup : ∀ pid sids, Event.pubMatched pid sids ∈ s.log → sids.Nodup
  inflightEq : s.inflightCount = (countStarts s.log : Int) - (countDones s.log : Int)
  fresh : ∀ pid, s.nextPubId ≤ pid → PidFresh s pid
  phase : ∀ pid, pid < s.nextPubId → PubPhase s pid

/-- Events a handler body can emit while running inside a dispatch task. -/
def isHandlerEvent : Event → Bool
  | .settledOk _ _ => true
  | .errorLogged _ _ => true
  | .subAdded _ => true
  | _ => false

/-- Is the event the snapshot marker of some publication? -/
def isMatchedE : Event → Bool
  | .pubMatched _ _ => true
  | _ => false

/-! ## Further observation helpers used in claim statements -/

/-- The declared parameter names of a compiled pattern, in order. -/
def paramNames (ms : List SegmentMatcher) : List String :=
  (ms.filter fun m => m.segType == .param).map fun m => m.name.getD ""

/-- Is a stored bracket expression a valid (modelled) character class? -/
def validRange (r : String) : Bool :=
  (parseClassBody ((r.data.drop 1).dropLast)).isSome

/-- Do all stored bracket expressions of a compiled pattern parse? -/
def validRanges (bm : BasePathMatcher) : Bool :=
  bm.matchers.all fun m =>
    match m.range with
    | none => true
    | some r => validRange r

def isDispatchT : Task → Bool
  | .dispatch _ _ _ _ => true
  | _ => false

def isPubContT : Task → Bool
  | .pubCont _ _ _ => true
  | _ => false

/-- Termination measure for a queue without publication continuations. -/
def queueMeasure (q : List Task) : Nat :=
  q.length + q.countP isDispatchT

/-- The C7 scenario family: `n` subscriptions with arbitrary handler
behaviours on one topic, then one publication of that topic, all in one
synchronous block. -/
def c7Actions (hs : List HandlerSpec) : List Action :=
  (hs.map fun h => Action.sub "/error/test" h false) ++ [Action.pub "/error/test" []]

/-- Did a fallible computation succeed (no exception thrown)? -/
def isOkE {e a : Type} : Except e a → Bool
  | .ok _ => true
  | .error _ => false

/-- The compiled matcher of the topic pattern used by the error-isolation
scenario programs. -/
def c7Matcher : BasePathMatcher :=
  match BasePathMatcher.construct "/error/test" with
  | .ok bm => bm
  | .error _ => ⟨[], "", false⟩

/-- The subscription records the C7 scenario block builds, first id `i`. -/
def c7Subs : List HandlerSpec → Nat → List Subscription
  | [], _ => []
  | h :: rest, i => ⟨i, "/error/test", c7Matcher, h, false, []⟩ :: c7Subs rest (i + 1)

/-- The `subAdded` events of the C7 scenario block, first id `i`. -/
def c7SubLog : List HandlerSpec → Nat → List Event
  | [], _ => []
  | _ :: rest, i => Event.subAdded i :: c7SubLog rest (i + 1)

/-- The compiled matcher of the reversed-range pattern `/[z-a]`. -/
def c10Matcher : BasePathMatcher :=
  match BasePathMatcher.construct "/[z-a]" with
  | .ok bm => bm
  | .error _ => ⟨[], "", false⟩


lemma splitCharL_ne_nil (sep : Char) (l : List Char) : splitCharL sep l ≠ [] := by
  cases l with
  | nil => simp [splitCharL]
  | cons c cs =>
    simp only [splitCharL]
    cases h : splitCharL sep cs with
    | nil => simp
    | cons p r => by_cases hc : c = sep <;> simp [hc]

lemma splitCharL_sep_mem {sep : Char} {l : List Char} :
    ∀ piece ∈ splitCharL sep l, sep ∉ piece := by
  induction l with
  | nil => intro p hp; simp [splitCharL] at hp; simp [hp]
  | cons c cs ih =>
    intro p hp
    simp only [splitCharL] at hp
    cases h : splitCharL sep cs with
    | nil => exact absurd h (splitCharL_ne_nil sep cs)
    | cons q r =>
      rw [h] at hp
      dsimp only at hp
      have hq : sep ∉ q := ih q (h ▸ List.mem_cons_self q r)
      have hr : ∀ x ∈ r, sep ∉ x := fun x hx => ih x (h ▸ List.mem_cons_of_mem q hx)
      by_cases hc : c = sep
      · rw [if_pos hc] at hp
        rcases List.mem_cons.1 hp with rfl | hp'
        · simp
        · rcases List.mem_cons.1 hp' with rfl | hp''
          · exact hq
          · exact hr p hp''
      · rw [if_neg hc] at hp
        rcases List.mem_cons.1 hp with rfl | hp'
        · intro hmem
          rcases List.mem_cons.1 hmem with hm | hm
          · exact hc hm.symm
          · exact hq hm
        · exact hr p hp'

lemma splitCharL_cons_sep (sep : Char) (l : List Char) :
    splitCharL sep (sep :: l) = [] :: splitCharL sep l := by
  simp only [splitCharL]
  cases h : splitCharL sep l with
  | nil => exact absurd h (splitCharL_ne_nil sep l)
  | cons p r => simp

lemma splitCharL_sepfree {sep : Char} {l : List Char} (h : sep ∉ l) :
    splitCharL sep l = [l] := by
  induction l with
  | nil => simp [splitCharL]
  | cons c cs ih =>
    simp only [splitCharL]
    rw [ih (fun hm => h (List.mem_cons_of_mem c hm))]
    have hc : ¬c = sep := fun hc => h (hc ▸ List.mem_cons_self c cs)
    simp [hc]

lemma splitCharL_sepfree_append {sep : Char} {a l : List Char} (h : sep ∉ a) :
    splitCharL sep (a ++ sep :: l) = a :: splitCharL sep l := by
  induction a with
  | nil => simpa using splitCharL_cons_sep sep l
  | cons x a' ih =>
    have hx : ¬x = sep := fun hc => h (hc ▸ List.mem_cons_self x a')
    have ha' : sep ∉ a' := fun hm => h (List.mem_cons_of_mem x hm)
    show splitCharL sep (x :: (a' ++ sep :: l)) = (x :: a') :: splitCharL sep l
    simp only [splitCharL]
    rw [ih ha']
    simp [hx]

lemma joinSlash_data_cons (f g : String) (rest : List String) :
    (joinSlash (f :: g :: rest)).data = f.data ++ '/' :: (joinSlash (g :: rest)).data := by
  show (f ++ "/" ++ joinSlash (g :: rest)).data = _
  rw [String.data_append, String.data_append, List.append_assoc]
  rfl

lemma joinSlash_split {fs : List String} (hfree : ∀ f ∈ fs, ('/' : Char) ∉ f.data)
    (hne : fs ≠ []) : splitCharL '/' (joinSlash fs).data = fs.map String.data := by
  induction fs with
  | nil => exact absurd rfl hne
  | cons f rest ih =>
    cases rest with
    | nil => simpa [joinSlash] using splitCharL_sepfree (hfree f (by simp))
    | cons g rest' =>
      rw [joinSlash_data_cons, splitCharL_sepfree_append (hfree f (by simp)),
        ih (fun x hx => hfree x (by simp [hx])) (by simp)]
      simp

lemma jsSplit_mem_sepfree {sep : Char} {s : String} :
    ∀ f ∈ jsSplit sep s, sep ∉ f.data := by
  intro f hf
  simp only [jsSplit, List.mem_map] at hf
  obtain ⟨l, hl, rfl⟩ := hf
  exact splitCharL_sep_mem l hl

lemma jsTrimL_subset {l : List Char} : ∀ c ∈ jsTrimL l, c ∈ l := by
  intro c hc
  simp only [jsTrimL, List.mem_reverse] at hc
  have h1 := List.dropWhile_subset isWS hc
  simp only [List.mem_reverse] at h1
  exact List.dropWhile_subset isWS h1

lemma normFrags_sepfree {q : String} : ∀ f ∈ normFrags q, ('/' : Char) ∉ f.data := by
  intro f hf
  simp only [normFrags, List.mem_filter, List.mem_map] at hf
  obtain ⟨⟨g, hg, rfl⟩, _⟩ := hf
  intro hmem
  exact jsSplit_mem_sepfree g hg (jsTrimL_subset _ hmem)

lemma mk_data_id : (fun l : List Char => (⟨l⟩ : String)) ∘ String.data = id := by
  funext s; rfl

/-- `getSegments` recovers the normalized fragments, except that a path that
normalizes to `/` yields the single empty segment. -/
lemma getSegments_eq (q : String) :
    getSegments q = if normFrags q = [] then [""] else normFrags q := by
  unfold getSegments normalizePath
  by_cases h : normFrags q = []
  · rw [h, if_pos rfl]
    rfl
  · rw [if_neg h]
    have hdata : ("/" ++ joinSlash (normFrags q)).data
        = '/' :: (joinSlash (normFrags q)).data := by
      rw [String.data_append]; rfl
    simp only [jsSplit, hdata, splitCharL_cons_sep,
      joinSlash_split normFrags_sepfree h]
    simp [mk_data_id, Function.comp_def]

/-- The rebuilt path `'/' + uriSegments.join('/')` is the normalized path. -/
lemma path_rebuild (uri : String) :
    "/" ++ joinSlash (getSegments uri) = normalizePath uri := by
  rw [getSegments_eq]
  by_cases h : normFrags uri = []
  · rw [if_pos h]
    show "/" ++ joinSlash [""] = normalizePath uri
    unfold normalizePath
    rw [h]
    rfl
  · rw [if_neg h]
    rfl

/-- C8: whenever `match` returns a result, the result's `path` is the
normalization of the candidate (lower-cased, fragments trimmed, empty
fragments dropped, single leading slash), and a failed match carries empty
params and wildcards. -/
theorem C8_match_result_path (p : String) (bm : BasePathMatcher) (q : String)
    (r : PathMatchResult)
    (hc : BasePathMatcher.construct p = .ok bm)
    (hm : bm.matchPath q = .ok r) :
    r.path = normalizePath q ∧
    (r.matched = false → r.params = [] ∧ r.wildcard = []) := by
  clear hc
  unfold BasePathMatcher.matchPath at hm
  by_cases hroot : (bm.isRoot && decide (normalizePath q = "/")) = true
  · rw [if_pos hroot] at hm
    have hq : normalizePath q = "/" := by
      rw [Bool.and_eq_true] at hroot
      exact of_decide_eq_true hroot.2
    cases hm
    exact ⟨hq.symm, by simp⟩
  · rw [if_neg hroot] at hm
    dsimp only at hm
    cases hl : matchLoop bm.matchers (getSegments q) [] [] with
    | error e => rw [hl] at hm; exact absurd hm (by simp [Except.bind])
    | ok tup =>
      obtain ⟨flag, params, wc, leftover⟩ := tup
      rw [hl] at hm
      simp only [Bind.bind, Except.bind, pure, Except.pure, Except.ok.injEq] at hm
      subst hm
      refine ⟨path_rebuild q, ?_⟩
      intro hfalse
      simp only at hfalse
      simp [hfalse]

/-! ## Match never throws when all class bodies are valid -/

lemma inBracketRange_ok {r : String} (h : validRange r = true) (v : String) :
    isOkE (inBracketRange v r) = true := by
  unfold validRange at h
  unfold inBracketRange
  cases hp : parseClassBody ((r.data.drop 1).dropLast) with
  | none => rw [hp] at h; simp [Option.isSome] at h
  | some spec => rw [List.drop_one] at hp; simp [hp, isOkE]

lemma checkAllRange_ok {r : String} (h : validRange r = true) (segs : List String) :
    isOkE (checkAllRange r segs) = true := by
  induction segs with
  | nil => simp [checkAllRange, isOkE]
  | cons s rest ih =>
    unfold checkAllRange
    cases hb : inBracketRange s r with
    | error e => have := inBracketRange_ok h s; rw [hb] at this; simp [isOkE] at this
    | ok b =>
      cases b with
      | true => simpa [Bind.bind, Except.bind, hb] using ih
      | false => simp [Bind.bind, Except.bind, pure, Except.pure, hb, isOkE]

lemma rangeRejects_ok {m : SegmentMatcher}
    (h : ∀ r, m.range = some r → validRange r = true) (s : String) :
    isOkE (rangeRejects m s) = true := by
  unfold rangeRejects
  cases hr : m.range with
  | none => simp [isOkE]
  | some r =>
    cases hb : inBracketRange s r with
    | error e =>
      have := inBracketRange_ok (h r hr) s
      rw [hb] at this
      simp [isOkE] at this
    | ok b => simp [Bind.bind, Except.bind, pure, Except.pure, hb, isOkE]

lemma rangeRejectsAny_ok {m : SegmentMatcher}
    (h : ∀ r, m.range = some r → validRange r = true) (segs : List String) :
    isOkE (rangeRejectsAny m segs) = true := by
  unfold rangeRejectsAny
  cases hr : m.range with
  | none => simp [isOkE]
  | some r =>
    cases hb : checkAllRange r segs with
    | error e =>
      have := checkAllRange_ok (h r hr) segs
      rw [hb] at this
      simp [isOkE] at this
    | ok b => simp [Bind.bind, Except.bind, pure, Except.pure, hb, isOkE]

lemma matchSeg_ok {m : SegmentMatcher}
    (h : ∀ r, m.range = some r → validRange r = true) (segs : List String) :
    isOkE (m.matchSeg segs) = true := by
  have hrr := rangeRejects_ok h
  have hra := rangeRejectsAny_ok h
  unfold SegmentMatcher.matchSeg
  cases m.segType
  case static => simp [isOkE]
  case param =>
    unfold SegmentMatcher.matchParam
    cases m.name
    case none => simp [isOkE]
    case some n =>
      dsimp only
      have single : isOkE (m.matchSingleParam segs) = true := by
        unfold SegmentMatcher.matchSingleParam
        cases segs with
        | nil => simp [isOkE]
        | cons a rest =>
          cases hb : rangeRejects m a with
          | error e => have := hrr a; rw [hb] at this; simp [isOkE] at this
          | ok b => cases b <;> simp [Bind.bind, Except.bind, pure, Except.pure, hb, isOkE]
      have multi : isOkE (m.matchMultiParam segs) = true := by
        unfold SegmentMatcher.matchMultiParam
        cases segs with
        | nil => simp [isOkE]
        | cons a rest =>
          cases hb : rangeRejectsAny m (a :: rest) with
          | error e => have := hra (a :: rest); rw [hb] at this; simp [isOkE] at this
          | ok b => cases b <;> simp [Bind.bind, Except.bind, pure, Except.pure, hb, isOkE]
      have multiStr : isOkE (m.matchMultiStringParam segs) = true := by
        unfold SegmentMatcher.matchMultiStringParam
        cases segs with
        | nil => simp [isOkE]
        | cons a rest =>
          cases hb : rangeRejectsAny m (a :: rest) with
          | error e => have := hra (a :: rest); rw [hb] at this; simp [isOkE] at this
          | ok b => cases b <;> simp [Bind.bind, Except.bind, pure, Except.pure, hb, isOkE]
      have opt : isOkE (m.matchOptionalParam segs) = true := by
        unfold SegmentMatcher.matchOptionalParam
        cases segs with
        | nil => simp [isOkE]
        | cons a rest =>
          cases hb : rangeRejects m a with
          | error e => have := hrr a; rw [hb] at this; simp [isOkE] at this
          | ok b => cases b <;> simp [Bind.bind, Except.bind, pure, Except.pure, hb, isOkE]
      by_cases h1 : m.single = true
      · simp [h1, single]
      · simp only [h1, if_false, Bool.not_eq_true] at h1 ⊢
        by_cases h2 : m.multi = true
        · simp [h2, multi]
        · by_cases h3 : m.multiString = true
          · simp [h2, h3, multiStr]
          · by_cases h4 : m.optional = true
            · simp [h2, h3, h4, opt]
            · simp [h2, h3, h4, isOkE]
  case wildcard =>
    unfold SegmentMatcher.matchWildcard
    have single : isOkE (m.matchSingleWildcard segs) = true := by
      unfold SegmentMatcher.matchSingleWildcard
      cases segs with
      | nil => simp [isOkE]
      | cons a rest =>
        cases hb : rangeRejects m a with
        | error e => have := hrr a; rw [hb] at this; simp [isOkE] at this
        | ok b => cases b <;> simp [Bind.bind, Except.bind, pure, Except.pure, hb, isOkE]
    have multi : isOkE (m.matchMultiWildcard segs) = true := by
      unfold SegmentMatcher.matchMultiWildcard
      cases segs with
      | nil => simp [isOkE]
      | cons a rest =>
        cases hb : rangeRejectsAny m (a :: rest) with
        | error e => have := hra (a :: rest); rw [hb] at this; simp [isOkE] at this
        | ok b => cases b <;> simp [Bind.bind, Except.bind, pure, Except.pure, hb, isOkE]
    have multiStr : isOkE (m.matchMultiStringWildcard segs) = true := by
      unfold SegmentMatcher.matchMultiStringWildcard
      cases segs with
      | nil => simp [isOkE]
      | cons a rest =>
        cases hb : rangeRejectsAny m (a :: rest) with
        | error e => have := hra (a :: rest); rw [hb] at this; simp [isOkE] at this
        | ok b => cases b <;> simp [Bind.bind, Except.bind, pure, Except.pure, hb, isOkE]
    have opt : isOkE (m.matchOptionalWildcard segs) = true := by
      unfold SegmentMatcher.matchOptionalWildcard
      cases segs with
      | nil => simp [isOkE]
      | cons a rest =>
        cases hb : rangeRejects m a with
        | error e => have := hrr a; rw [hb] at this; simp [isOkE] at this
        | ok b => cases b <;> simp [Bind.bind, Except.bind, pure, Except.pure, hb, isOkE]
    by_cases h1 : m.single = true
    · simp [h1, single]
    · by_cases h2 : m.multi = true
      · simp [h1, h2, multi]
      · by_cases h3 : m.multiString = true
        · simp [h1, h2, h3, multiStr]
        · by_cases h4 : m.optional = true
          · simp [h1, h2, h3, h4, opt]
          · simp [h1, h2, h3, h4, isOkE]

lemma matchLoop_ok {ms : List SegmentMatcher}
    (h : ∀ m ∈ ms, ∀ r, m.range = some r → validRange r = true) :
    ∀ (rem : List String) (params : List (String × Val)) (wc : List String),
    isOkE (matchLoop ms rem params wc) = true := by
  induction ms with
  | nil => intro rem params wc; simp [matchLoop, isOkE]
  | cons m rest ih =>
    intro rem params wc
    have hm : ∀ r, m.range = some r → validRange r = true := h m (by simp)
    have hrest : ∀ m' ∈ rest, ∀ r, m'.range = some r → validRange r = true :=
      fun m' hm' => h m' (by simp [hm'])
    unfold matchLoop
    by_cases hrem : rem.isEmpty = true
    · by_cases hopt : m.isOptional = true
      · simpa [hrem, hopt] using ih hrest rem params wc
      · simp [hrem, hopt, isOkE]
    · cases hseg : m.matchSeg rem with
      | error e =>
        have := matchSeg_ok hm rem
        rw [hseg] at this
        simp [isOkE] at this
      | ok res =>
        cases res with
        | none => simp [hrem, Bind.bind, Except.bind, hseg, isOkE]
        | some r =>
          simp only [hrem, if_false, Bool.false_eq_true, Bind.bind, Except.bind, hseg]
          exact ih hrest _ _ _

/-- C10 (amended): `match` cannot throw for an accepted pattern *provided*
every stored bracket expression is a well-formed character class; the
construction-time acceptance alone does not guarantee this (see the
counterexample), because class bodies are only compiled at match time. -/
theorem C10_match_total_on_valid_ranges (p : String) (bm : BasePathMatcher)
    (hc : BasePathMatcher.construct p = .ok bm)
    (hv : validRanges bm = true) (q : String) :
    isOkE (bm.matchPath q) = true := by
  clear hc
  have hms : ∀ m ∈ bm.matchers, ∀ r, m.range = some r → validRange r = true := by
    intro m hm r hr
    unfold validRanges at hv
    rw [List.all_eq_true] at hv
    have := hv m hm
    rw [hr] at this
    exact this
  unfold BasePathMatcher.matchPath
  by_cases hroot : (bm.isRoot && decide (normalizePath q = "/")) = true
  · simp [hroot, isOkE]
  · rw [if_neg hroot]
    dsimp only
    cases hl : matchLoop bm.matchers (getSegments q) [] [] with
    | error e =>
      have := matchLoop_ok hms (getSegments q) [] []
      rw [hl] at this
      simp [isOkE] at this
    | ok tup =>
      obtain ⟨flag, params, wc, leftover⟩ := tup
      simp [Bind.bind, Except.bind, pure, Except.pure, hl, isOkE]

/-! ## Pattern-construction errors -/

lemma empty_segment_errors (s : String) (h : jsTrim s = "") :
    isOkE (parseSegment s) = false := by
  unfold parseSegment
  simp [h, isOkE]

lemma checkParams_nodup :
    ∀ (ms : List SegmentMatcher) (seen : List String),
      checkParams ms seen = .ok () →
      (paramNames ms).Nodup ∧ ∀ n ∈ paramNames ms, n ∉ seen := by
  intro ms
  induction ms with
  | nil => intro seen _; simp [paramNames]
  | cons m rest ih =>
    intro seen hck
    unfold checkParams at hck
    by_cases hp : m.segType = .param
    · rw [if_pos hp] at hck
      by_cases hin : m.name.getD "" ∈ seen
      · rw [if_pos hin] at hck
        exact absurd hck (by simp)
      · rw [if_neg hin] at hck
        obtain ⟨hnd, hnotin⟩ := ih _ hck
        have hpn : paramNames (m :: rest) = m.name.getD "" :: paramNames rest := by
          simp [paramNames, hp]
        rw [hpn]
        constructor
        · refine List.Nodup.cons ?_ hnd
          intro hmem
          exact hnotin _ hmem (List.mem_cons_self _ _)
        · intro n hn
          rcases List.mem_cons.1 hn with rfl | hn'
          · exact hin
          · intro hs
            exact hnotin n hn' (List.mem_cons_of_mem _ hs)
    · rw [if_neg hp] at hck
      have hpn : paramNames (m :: rest) = paramNames rest := by
        simp [paramNames, hp]
      rw [hpn]
      exact ih seen hck

lemma construct_paramNames_nodup (p : String) (bm : BasePathMatcher)
    (hc : BasePathMatcher.construct p = .ok bm) :
    (paramNames bm.matchers).Nodup := by
  unfold BasePathMatcher.construct at hc
  cases hp : parsePattern p with
  | error e => rw [hp] at hc; exact absurd hc (by simp [Bind.bind, Except.bind])
  | ok segs =>
    rw [hp] at hc
    simp only [Bind.bind, Except.bind] at hc
    cases hk : checkParams (segs.map SegmentMatcher.ofSegment) [] with
    | error e => rw [hk] at hc; exact absurd hc (by simp)
    | ok u =>
      obtain ⟨⟩ := u
      rw [hk] at hc
      simp only [pure, Except.pure, Except.ok.injEq] at hc
      subst hc
      exact (checkParams_nodup _ [] hk).1

/-! ## Bookkeeping lemmas for the scheduler -/

lemma matchedSids_append (pid : Nat) (l₁ l₂ : List Event) :
    matchedSids pid (l₁ ++ l₂) =
      match matchedSids pid l₁ with
      | some sids => some sids
      | none => matchedSids pid l₂ := by
  induction l₁ with
  | nil => simp [matchedSids]
  | cons e rest ih =>
    cases e with
    | pubMatched p sids =>
      by_cases hp : p = pid
      · simp [matchedSids, hp]
      · simp [matchedSids, hp, ih]
    | pubStarted p => simpa [matchedSids] using ih
    | invoked a b c => simpa [matchedSids] using ih
    | settledOk a b => simpa [matchedSids] using ih
    | errorLogged a b => simpa [matchedSids] using ih
    | pubDone a => simpa [matchedSids] using ih
    | pubThrew a => simpa [matchedSids] using ih
    | subAdded a => simpa [matchedSids] using ih

lemma matchedSids_of_no_matchedE (pid : Nat) {l₁ l₂ : List Event}
    (h : ∀ e ∈ l₂, isMatchedE e = false) :
    matchedSids pid (l₁ ++ l₂) = matchedSids pid l₁ := by
  rw [matchedSids_append]
  have h2 : matchedSids pid l₂ = none := by
    induction l₂ with
    | nil => simp [matchedSids]
    | cons e rest ih =>
      cases e with
      | pubMatched p sids =>
        have := h (Event.pubMatched p sids) (by simp)
        simp [isMatchedE] at this
      | pubStarted p => exact ih fun e he => h e (by simp [he])
      | invoked a b c => exact ih fun e he => h e (by simp [he])
      | settledOk a b => exact ih fun e he => h e (by simp [he])
      | errorLogged a b => exact ih fun e he => h e (by simp [he])
      | pubDone a => exact ih fun e he => h e (by simp [he])
      | pubThrew a => exact ih fun e he => h e (by simp [he])
      | subAdded a => exact ih fun e he => h e (by simp [he])
  rw [h2]
  cases matchedSids pid l₁ <;> rfl

lemma pendingGet_append (l₁ l₂ : List (Nat × Nat)) (pid : Nat) :
    pendingGet (l₁ ++ l₂) pid =
      match pendingGet l₁ pid with
      | some k => some k
      | none => pendingGet l₂ pid := by
  induction l₁ with
  | nil => simp [pendingGet]
  | cons q rest ih =>
    by_cases hq : q.1 = pid
    · simp [pendingGet, hq]
    · simp [pendingGet, hq, ih]

lemma pendingGet_filterOut (l : List (Nat × Nat)) (pid : Nat) :
    pendingGet (l.filter fun q => q.1 ≠ pid) pid = none := by
  induction l with
  | nil => simp [pendingGet]
  | cons q rest ih =>
    simp only [ne_eq, decide_not] at ih ⊢
    by_cases hq : q.1 = pid
    · simpa [hq] using ih
    · simpa [List.filter_cons, hq, pendingGet] using ih

lemma pendingGet_filterOut_ne (l : List (Nat × Nat)) {pid pid' : Nat} (h : pid' ≠ pid) :
    pendingGet (l.filter fun q => q.1 ≠ pid) pid' = pendingGet l pid' := by
  induction l with
  | nil => simp [pendingGet]
  | cons q rest ih =>
    simp only [ne_eq, decide_not] at ih ⊢
    by_cases hq : q.1 = pid
    · simp [List.filter_cons, hq, pendingGet, Ne.symm h, ih]
    · by_cases hq' : q.1 = pid'
      · simp [List.filter_cons, hq, pendingGet, hq', h]
      · simp [List.filter_cons, hq, pendingGet, hq', ih]


lemma pendingGet_update (l : List (Nat × Nat)) (pid k' : Nat) :
    pendingGet (l.map fun q => if q.1 = pid then (pid, k') else q) pid
      = (pendingGet l pid).map fun _ => k' := by
  induction l with
  | nil => simp [pendingGet]
  | cons q rest ih =>
    by_cases hq : q.1 = pid
    · simp [pendingGet, hq]
    · simp [pendingGet, hq, ih]

lemma pendingGet_update_ne (l : List (Nat × Nat)) {pid pid' : Nat} (h : pid' ≠ pid)
    (k' : Nat) :
    pendingGet (l.map fun q => if q.1 = pid then (pid, k') else q) pid'
      = pendingGet l pid' := by
  induction l with
  | nil => simp [pendingGet]
  | cons q rest ih =>
    by_cases hq : q.1 = pid
    · simp [pendingGet, hq, Ne.symm h, ih]
    · by_cases hq' : q.1 = pid'
      · simp [pendingGet, hq, hq', h]
      · simp [pendingGet, hq, hq', ih]

lemma handlerEvent_facts {e : Event} (h : isHandlerEvent e = true) :
    isStartE e = false ∧ isDoneE e = false ∧ (∀ pid, isInvokedP pid e = false) ∧
    (∀ sid pid, isInvokedFor sid pid e = false) ∧ isMatchedE e = false ∧
    (∀ pid, e ≠ Event.pubDone pid) ∧ (∀ pid, e ≠ Event.pubThrew pid) := by
  cases e <;> simp_all [isHandlerEvent, isStartE, isDoneE, isInvokedP, isInvokedFor,
    isMatchedE]

lemma countP_append_no {α : Type} {p : α → Bool} {l₂ : List α}
    (h : ∀ e ∈ l₂, p e = false) (l₁ : List α) :
    (l₁ ++ l₂).countP p = l₁.countP p := by
  rw [List.countP_append]
  have : l₂.countP p = 0 := by
    rw [List.countP_eq_zero]
    intro a ha
    simp [h a ha]
  omega

lemma filterSubsMap_sub {topic : String} {x : Subscription} {y : SubscriptionMatch}
    (h : filterSubsMap topic x = .ok y) : y.subscription = x := by
  unfold filterSubsMap at h
  cases hm : memoGet x.matchedTopics topic with
  | some cached => rw [hm] at h; cases h; rfl
  | none =>
    rw [hm] at h
    cases hr : x.matcher.matchPath topic with
    | error e => rw [hr] at h; exact absurd h (by simp [Bind.bind, Except.bind])
    | ok r =>
      rw [hr] at h
      simp only [Bind.bind, Except.bind, pure, Except.pure, Except.ok.injEq] at h
      subst h
      rfl

lemma mapM_filterSubsMap_subs {topic : String} :
    ∀ {subs : List Subscription} {all : List SubscriptionMatch},
      subs.mapM (filterSubsMap topic) = .ok all →
      all.map (fun m => m.subscription) = subs := by
  intro subs
  induction subs with
  | nil => intro all h; simp only [List.mapM_nil, pure, Except.pure, Except.ok.injEq] at h; simp [← h]
  | cons x rest ih =>
    intro all h
    rw [List.mapM_cons] at h
    cases hx : filterSubsMap topic x with
    | error e => rw [hx] at h; exact absurd h (by simp [Bind.bind, Except.bind])
    | ok y =>
      rw [hx] at h
      cases hrest : rest.mapM (filterSubsMap topic) with
      | error e =>
        rw [hrest] at h
        exact absurd h (by simp [Bind.bind, Except.bind])
      | ok ys =>
        rw [hrest] at h
        simp only [Bind.bind, Except.bind, pure, Except.pure, Except.ok.injEq] at h
        subst h
        simp [filterSubsMap_sub hx, ih hrest]

lemma filterSubs_sublist {subs : List Subscription} {topic : String}
    {ms : List SubscriptionMatch} (h : filterSubs subs topic = .ok ms) :
    List.Sublist (ms.map fun m => m.subscription) subs := by
  unfold filterSubs at h
  cases hall : subs.mapM (filterSubsMap topic) with
  | error e => rw [hall] at h; exact absurd h (by simp [Bind.bind, Except.bind])
  | ok all =>
    rw [hall] at h
    simp only [Bind.bind, Except.bind, pure, Except.pure, Except.ok.injEq] at h
    subst h
    rw [← mapM_filterSubsMap_subs hall]
    exact (List.filter_sublist all).map fun m => m.subscription

lemma filterSubs_sids_nodup {subs : List Subscription} {topic : String}
    {ms : List SubscriptionMatch} (h : filterSubs subs topic = .ok ms)
    (hnd : (subs.map Subscription.id).Nodup) :
    (ms.map fun m => m.subscription.id).Nodup := by
  have hsub : List.Sublist ((ms.map fun m => m.subscription).map Subscription.id)
      (subs.map Subscription.id) := (filterSubs_sublist h).map Subscription.id
  rw [List.map_map] at hsub
  exact hnd.sublist hsub

lemma spawn_dispatchFor (pid : Nat) (topic : String) (args : Args)
    (ms : List SubscriptionMatch) :
    (ms.map fun m => Task.dispatch pid m topic args).countP (isDispatchFor pid)
      = ms.length := by
  rw [List.countP_map]
  have : (isDispatchFor pid ∘ fun m => Task.dispatch pid m topic args)
      = fun _ => true := by
    funext m; simp [isDispatchFor, Function.comp]
  rw [this]
  simp [List.countP_true]

lemma spawn_dispatchFor_ne {pid pid' : Nat} (h : pid' ≠ pid) (topic : String)
    (args : Args) (ms : List SubscriptionMatch) :
    (ms.map fun m => Task.dispatch pid m topic args).countP (isDispatchFor pid')
      = 0 := by
  rw [List.countP_map, List.countP_eq_zero]
  intro m _
  simp [isDispatchFor, Function.comp, Ne.symm h]

lemma spawn_dispatchSub (pid sid : Nat) (topic : String) (args : Args)
    (ms : List SubscriptionMatch) :
    (ms.map fun m => Task.dispatch pid m topic args).countP (isDispatchSub pid sid)
      = (ms.map fun m => m.subscription.id).count sid := by
  rw [List.countP_map]
  have hfn : (isDispatchSub pid sid ∘ fun m => Task.dispatch pid m topic args)
      = fun m : SubscriptionMatch => m.subscription.id == sid := by
    funext m
    simp [isDispatchSub, Function.comp]
  rw [hfn, List.count_eq_countP, List.countP_map]
  rfl

lemma spawn_dispatchSub_ne {pid pid' : Nat} (h : pid' ≠ pid) (sid : Nat)
    (topic : String) (args : Args) (ms : List SubscriptionMatch) :
    (ms.map fun m => Task.dispatch pid m topic args).countP (isDispatchSub pid' sid)
      = 0 := by
  rw [List.countP_map, List.countP_eq_zero]
  intro m _
  simp [isDispatchSub, Function.comp, Ne.symm h]

lemma spawn_pubCont (pid pid' : Nat) (topic : String) (args : Args)
    (ms : List SubscriptionMatch) :
    (ms.map fun m => Task.dispatch pid m topic args).countP (isPubContFor pid')
      = 0 := by
  rw [List.countP_map, List.countP_eq_zero]
  intro m _
  simp [isPubContFor, Function.comp]

lemma spawn_taskPid (pid : Nat) (topic : String) (args : Args)
    (ms : List SubscriptionMatch) :
    ∀ t ∈ ms.map fun m => Task.dispatch pid m topic args, taskPid t = pid := by
  intro t ht
  simp only [List.mem_map] at ht
  obtain ⟨m, _, rfl⟩ := ht
  rfl

lemma countInvokedFor_le {sid pid : Nat} (l : List Event) :
    countInvokedFor sid pid l ≤ countInvokedP pid l := by
  apply List.countP_mono_left
  intro e _ he
  cases e <;> simp_all [isInvokedFor, isInvokedP]

lemma countInvokedFor_zero {sid pid : Nat} {l : List Event}
    (h : countInvokedP pid l = 0) : countInvokedFor sid pid l = 0 :=
  Nat.le_zero.1 (h ▸ countInvokedFor_le l)

lemma taskNotPid_counts {t : Task} {pid : Nat} (h : taskPid t ≠ pid) :
    isDispatchFor pid t = false ∧ isPubContFor pid t = false ∧
    ∀ sid, isDispatchSub pid sid t = false := by
  cases t <;> simp_all [taskPid, isDispatchFor, isPubContFor, isDispatchSub]

lemma invokedFor_imp {sid pid : Nat} {e : Event} (h : isInvokedFor sid pid e = true) :
    isInvokedP pid e = true := by
  cases e <;> simp_all [isInvokedFor, isInvokedP]

/-- A publication's phase is unchanged by a step that does not touch any of
its observables. -/
lemma pubPhase_untouched {s s' : PSState} {pid : Nat}
    (hph : PubPhase s pid)
    (hmat : matchedSids pid s'.log = matchedSids pid s.log)
    (hinv : countInvokedP pid s'.log = countInvokedP pid s.log)
    (hinvF : ∀ sid, countInvokedFor sid pid s'.log = countInvokedFor sid pid s.log)
    (hdone : (Event.pubDone pid ∈ s'.log) ↔ (Event.pubDone pid ∈ s.log))
    (hthrew : (Event.pubThrew pid ∈ s'.log) ↔ (Event.pubThrew pid ∈ s.log))
    (hdc : dispatchCountFor pid s'.queue = dispatchCountFor pid s.queue)
    (hdcs : ∀ sid, dispatchCountSub pid sid s'.queue = dispatchCountSub pid sid s.queue)
    (hpc : pubContCountFor pid s'.queue = pubContCountFor pid s.queue)
    (hpend : pendingGet s'.pending pid = pendingGet s.pending pid) :
    PubPhase s' pid := by
  unfold PubPhase at hph ⊢
  rw [hmat]
  cases hms : matchedSids pid s.log with
  | none =>
    rw [hms] at hph
    obtain ⟨h1, h2, h3, h4, h5⟩ := hph
    refine ⟨by rw [hdc]; exact h1, by rw [hpend]; exact h2,
      by rw [hinv]; exact h3, fun hm => h4 (hdone.1 hm), ?_⟩
    by_cases ht : Event.pubThrew pid ∈ s.log
    · rw [if_pos ht] at h5
      rw [if_pos (hthrew.2 ht), hpc]
      exact h5
    · rw [if_neg ht] at h5
      rw [if_neg (fun hm => ht (hthrew.1 hm)), hpc]
      exact h5
  | some sids =>
    rw [hms] at hph
    obtain ⟨h1, h2, h3⟩ := hph
    refine ⟨by rw [hpc]; exact h1, fun hm => h2 (hthrew.1 hm), ?_⟩
    by_cases hd : Event.pubDone pid ∈ s.log
    · rw [if_pos hd] at h3
      rw [if_pos (hdone.2 hd)]
      obtain ⟨a, b, c, d⟩ := h3
      exact ⟨by rw [hdc]; exact a, by rw [hpend]; exact b,
        by rw [hinv]; exact c, fun sid => by rw [hinvF]; exact d sid⟩
    · rw [if_neg hd] at h3
      rw [if_neg (fun hm => hd (hdone.1 hm))]
      obtain ⟨a, b, c, d⟩ := h3
      refine ⟨?_, ?_, ?_, ?_⟩
      · rw [hpend, hdc]; exact a
      · rw [hdc]; exact b
      · rw [hinv, hdc]; exact c
      · intro sid
        rw [hinvF, hdcs]
        exact d sid

lemma pidFresh_untouched {s s' : PSState} {pid : Nat} (hf : PidFresh s pid)
    (hlog : ∀ e ∈ s'.log, e ∈ s.log ∨ eventMentionsPub pid e = false)
    (hque : ∀ t ∈ s'.queue, t ∈ s.queue ∨ taskPid t ≠ pid)
    (hpend : pendingGet s'.pending pid = none) :
    PidFresh s' pid := by
  obtain ⟨hl, hq, hp⟩ := hf
  refine ⟨?_, ?_, hpend⟩
  · intro e he
    rcases hlog e he with h1 | h1
    · exact hl e h1
    · exact h1
  · intro t ht
    rcases hque t ht with h1 | h1
    · exact hq t h1
    · exact h1

lemma subAddCore_spec {pat : String} {hspec : HandlerSpec} {once : Bool}
    {s s' : PSState} (hk : subAddCore pat hspec once s = .ok s') :
    s'.queue = s.queue ∧ s'.pending = s.pending ∧
    s'.inflightCount = s.inflightCount ∧ s'.nextPubId = s.nextPubId ∧
    s'.log = s.log ++ [Event.subAdded s.nextSubId] ∧
    s'.nextSubId = s.nextSubId + 1 ∧
    ∃ bm, s'.subs = s.subs ++ [⟨s.nextSubId, pat, bm, hspec, once, []⟩] := by
  unfold subAddCore at hk
  cases hc : BasePathMatcher.construct pat with
  | error e => rw [hc] at hk; exact absurd hk (by simp)
  | ok bm =>
    rw [hc] at hk
    cases hk
    refine ⟨rfl, rfl, rfl, rfl, rfl, rfl, bm, rfl⟩

lemma subIds_snoc {subs : List Subscription} {n : Nat}
    (h1 : ∀ t ∈ subs, t.id < n) (h2 : (subs.map Subscription.id).Nodup)
    {newSub : Subscription} (hid : newSub.id = n) :
    (∀ t ∈ subs ++ [newSub], t.id < n + 1) ∧
    ((subs ++ [newSub]).map Subscription.id).Nodup := by
  constructor
  · intro t ht
    rcases List.mem_append.1 ht with ht | ht
    · exact Nat.lt_succ_of_lt (h1 t ht)
    · simp only [List.mem_singleton] at ht
      subst ht
      omega
  · rw [List.map_append, List.map_singleton]
    apply List.Nodup.append h2 (by simp)
    intro x hx hy
    simp only [List.mem_singleton] at hy
    subst hy
    simp only [List.mem_map] at hx
    obtain ⟨t, ht, hxid⟩ := hx
    have := h1 t ht
    omega

/-- Effect of invoking a handler body inside a dispatch task: new queue
entries are only its own continuation, new log entries are only handler
events about this publication, and every other component of the state that
the publication phases observe is unchanged. -/
lemma runHandler_spec (h : HandlerSpec) (sid pid : Nat) (s : PSState) :
    ∃ extraQ extraL,
      (runHandler h sid pid s).queue = s.queue ++ extraQ ∧
      (runHandler h sid pid s).log = s.log ++ extraL ∧
      (runHandler h sid pid s).pending = s.pending ∧
      (runHandler h sid pid s).inflightCount = s.inflightCount ∧
      (runHandler h sid pid s).nextPubId = s.nextPubId ∧
      (∀ t ∈ extraQ, t = Task.handlerCont sid pid) ∧
      (∀ e ∈ extraL, isHandlerEvent e = true ∧
        ∀ p, eventMentionsPub p e = true → p = pid) ∧
      ((∀ t ∈ s.subs, t.id < s.nextSubId) → (s.subs.map Subscription.id).Nodup →
        (∀ t ∈ (runHandler h sid pid s).subs,
          t.id < (runHandler h sid pid s).nextSubId) ∧
        ((runHandler h sid pid s).subs.map Subscription.id).Nodup) := by
  cases h with
  | immediate =>
    refine ⟨[], [Event.settledOk sid pid], by simp [runHandler], by simp [runHandler],
      rfl, rfl, rfl, by simp, ?_, fun a b => ⟨a, b⟩⟩
    intro e he
    simp only [List.mem_singleton] at he
    subst he
    exact ⟨rfl, fun p hp => by simp [eventMentionsPub] at hp; exact hp.symm⟩
  | afterTick =>
    refine ⟨[Task.handlerCont sid pid], [], by simp [runHandler], by simp [runHandler],
      rfl, rfl, rfl, by simp, by simp, fun a b => ⟨a, b⟩⟩
  | throwing =>
    refine ⟨[], [Event.errorLogged sid pid], by simp [runHandler], by simp [runHandler],
      rfl, rfl, rfl, by simp, ?_, fun a b => ⟨a, b⟩⟩
    intro e he
    simp only [List.mem_singleton] at he
    subst he
    exact ⟨rfl, fun p hp => by simp [eventMentionsPub] at hp; exact hp.symm⟩
  | subscribing pat =>
    cases hk : subAddCore pat .immediate false s with
    | error e =>
      refine ⟨[], [Event.errorLogged sid pid], by simp [runHandler, hk],
        by simp [runHandler, hk], by simp [runHandler, hk], by simp [runHandler, hk],
        by simp [runHandler, hk], by simp, ?_, ?_⟩
      · intro ev he
        simp only [List.mem_singleton] at he
        subst he
        exact ⟨rfl, fun p hp => by simp [eventMentionsPub] at hp; exact hp.symm⟩
      · intro hlt hnd
        constructor
        · intro t ht
          simp only [runHandler, hk] at ht ⊢
          exact hlt t ht
        · simp only [runHandler, hk]
          exact hnd
    | ok s' =>
      obtain ⟨hq, hp, hi, hnp, hl, hns, bm, hsubs⟩ := subAddCore_spec hk
      refine ⟨[], [Event.subAdded s.nextSubId, Event.settledOk sid pid],
        by simp [runHandler, hk, hq], by simp [runHandler, hk, hl],
        by simp [runHandler, hk, hp], by simp [runHandler, hk, hi],
        by simp [runHandler, hk, hnp], by simp, ?_, ?_⟩
      · intro ev he
        simp only [List.mem_cons, List.mem_singleton, List.not_mem_nil, or_false] at he
        rcases he with rfl | rfl
        · exact ⟨rfl, fun p hp' => by simp [eventMentionsPub] at hp'⟩
        · exact ⟨rfl, fun p hp' => by simp [eventMentionsPub] at hp'; exact hp'.symm⟩
      · intro hlt hnd
        have hsn := @subIds_snoc _ _ hlt hnd
          ⟨s.nextSubId, pat, bm, .immediate, false, []⟩ rfl
        constructor
        · intro t ht
          simp only [runHandler, hk] at ht ⊢
          rw [hsubs] at ht
          have h1 := hsn.1 t ht
          rw [hns]
          omega
        · simp only [runHandler, hk]
          rw [hsubs]
          exact hsn.2

lemma isInvokedP_mentions {pid : Nat} {e : Event} (h : isInvokedP pid e = true) :
    eventMentionsPub pid e = true := by
  cases e <;> simp_all [isInvokedP, eventMentionsPub]

lemma isStartE_mentions : eventMentionsPub pid (Event.pubStarted pid) = true := by
  simp [eventMentionsPub]

lemma taskFor_taskPid {pid : Nat} {t : Task} :
    (isDispatchFor pid t = true → taskPid t = pid) ∧
    (isPubContFor pid t = true → taskPid t = pid) ∧
    (∀ sid, isDispatchSub pid sid t = true → taskPid t = pid) := by
  cases t <;> simp_all [isDispatchFor, isPubContFor, isDispatchSub, taskPid]

lemma matchedSids_none_of_fresh {pid : Nat} {log : List Event}
    (h : ∀ e ∈ log, eventMentionsPub pid e = false) : matchedSids pid log = none := by
  induction log with
  | nil => rfl
  | cons e rest ih =>
    have hrest := ih fun x hx => h x (by simp [hx])
    cases e with
    | pubMatched p sids =>
      have hp := h (Event.pubMatched p sids) (by simp)
      simp only [eventMentionsPub, beq_eq_false_iff_ne, ne_eq] at hp
      simp [matchedSids, hp, hrest]
    | pubStarted p => simpa [matchedSids] using hrest
    | invoked a b c => simpa [matchedSids] using hrest
    | settledOk a b => simpa [matchedSids] using hrest
    | errorLogged a b => simpa [matchedSids] using hrest
    | pubDone a => simpa [matchedSids] using hrest
    | pubThrew a => simpa [matchedSids] using hrest
    | subAdded a => simpa [matchedSids] using hrest

/-- A fresh publication id observes the empty phase-A configuration. -/
lemma pidFresh_counts {s : PSState} {pid : Nat} (hf : PidFresh s pid) :
    matchedSids pid s.log = none ∧
    dispatchCountFor pid s.queue = 0 ∧
    pubContCountFor pid s.queue = 0 ∧
    (∀ sid, dispatchCountSub pid sid s.queue = 0) ∧
    countInvokedP pid s.log = 0 ∧
    Event.pubDone pid ∉ s.log ∧
    Event.pubThrew pid ∉ s.log ∧
    pendingGet s.pending pid = none := by
  obtain ⟨hl, hq, hp⟩ := hf
  refine ⟨matchedSids_none_of_fresh hl, ?_, ?_, ?_, ?_, ?_, ?_, hp⟩
  · rw [dispatchCountFor, List.countP_eq_zero]
    intro t ht
    simp only [Bool.not_eq_true]
    cases hb : isDispatchFor pid t
    · rfl
    · exact absurd (taskFor_taskPid.1 hb) (hq t ht)
  · rw [pubContCountFor, List.countP_eq_zero]
    intro t ht
    simp only [Bool.not_eq_true]
    cases hb : isPubContFor pid t
    · rfl
    · exact absurd (taskFor_taskPid.2.1 hb) (hq t ht)
  · intro sid
    rw [dispatchCountSub, List.countP_eq_zero]
    intro t ht
    simp only [Bool.not_eq_true]
    cases hb : isDispatchSub pid sid t
    · rfl
    · exact absurd (taskFor_taskPid.2.2 sid hb) (hq t ht)
  · rw [countInvokedP, List.countP_eq_zero]
    intro e he
    simp only [Bool.not_eq_true]
    cases hb : isInvokedP pid e
    · rfl
    · have := isInvokedP_mentions hb
      rw [hl e he] at this
      exact this.symm
  · intro hmem
    have := hl (Event.pubDone pid) hmem
    simp [eventMentionsPub] at this
  · intro hmem
    have := hl (Event.pubThrew pid) hmem
    simp [eventMentionsPub] at this

lemma inv_subAdd {pat : String} {hspec : HandlerSpec} {once : Bool} {s s' : PSState}
    (h : Inv s) (hk : subAddCore pat hspec once s = .ok s') : Inv s' := by
  obtain ⟨hq, hp, hi, hnp, hl, hns, bm, hsubs⟩ := subAddCore_spec hk
  refine ⟨?_, ?_, ?_, ?_, ?_, ?_⟩
  · intro t ht
    rw [hsubs] at ht
    rw [hns]
    exact (@subIds_snoc _ _ h.subIdsLt h.subIdsNodup ⟨s.nextSubId, pat, bm, hspec, once, []⟩ rfl).1 t ht
  · rw [hsubs]
    exact (@subIds_snoc _ _ h.subIdsLt h.subIdsNodup ⟨s.nextSubId, pat, bm, hspec, once, []⟩ rfl).2
  · intro pid sids hmem
    rw [hl] at hmem
    rcases List.mem_append.1 hmem with hmem | hmem
    · exact h.sidsNodup pid sids hmem
    · simp at hmem
  · rw [hi, h.inflightEq, hl]
    unfold countStarts countDones
    rw [countP_append_no (by simp [isStartE]) s.log,
      countP_append_no (by simp [isDoneE]) s.log]
  · intro pid hpid
    rw [hnp] at hpid
    apply pidFresh_untouched (h.fresh pid hpid)
    · intro e he
      rw [hl] at he
      rcases List.mem_append.1 he with he | he
      · exact Or.inl he
      · simp only [List.mem_singleton] at he
        subst he
        exact Or.inr (by simp [eventMentionsPub])
    · intro t ht
      rw [hq] at ht
      exact Or.inl ht
    · rw [hp]
      exact (h.fresh pid hpid).2.2
  · intro pid hpid
    rw [hnp] at hpid
    apply pubPhase_untouched (h.phase pid hpid)
    · rw [hl]
      exact matchedSids_of_no_matchedE pid (by simp [isMatchedE])
    · rw [hl, countInvokedP, countP_append_no (by simp [isInvokedP])]
      rfl
    · intro sid
      rw [hl, countInvokedFor, countP_append_no (by simp [isInvokedFor])]
      rfl
    · rw [hl]
      simp
    · rw [hl]
      simp
    · rw [hq]
    · intro sid
      rw [hq]
    · rw [hq]
    · rw [hp]

lemma inv_pubStart (topic : String) (args : Args) {s : PSState} (h : Inv s) :
    Inv (pubStart topic args s) := by
  have hfreshN := h.fresh s.nextPubId (Nat.le_refl _)
  obtain ⟨hm0, hd0, hc0, hds0, hi0, hdone0, hthrew0, hp0⟩ := pidFresh_counts hfreshN
  refine ⟨h.subIdsLt, h.subIdsNodup, ?_, ?_, ?_, ?_⟩
  · intro pid sids hmem
    simp only [pubStart] at hmem
    rcases List.mem_append.1 hmem with hmem | hmem
    · exact h.sidsNodup pid sids hmem
    · simp at hmem
  · show s.inflightCount + 1 = _
    rw [h.inflightEq]
    simp only [pubStart, countStarts, countDones, List.countP_append]
    simp [isStartE, isDoneE, List.countP_cons]
    push_cast
    ring
  · intro pid hpid
    simp only [pubStart] at hpid
    have hgt : s.nextPubId < pid := hpid
    apply pidFresh_untouched (h.fresh pid (Nat.le_of_lt hgt))
    · intro e he
      simp only [pubStart] at he
      rcases List.mem_append.1 he with he | he
      · exact Or.inl he
      · simp only [List.mem_singleton] at he
        subst he
        refine Or.inr ?_
        simp only [eventMentionsPub, beq_eq_false_iff_ne, ne_eq]
        omega
    · intro t ht
      simp only [pubStart] at ht
      rcases List.mem_append.1 ht with ht | ht
      · exact Or.inl ht
      · simp only [List.mem_singleton] at ht
        subst ht
        refine Or.inr ?_
        simp only [taskPid]
        omega
    · exact (h.fresh pid (Nat.le_of_lt hgt)).2.2
  · intro pid hpid
    simp only [pubStart] at hpid
    rcases Nat.lt_succ_iff_lt_or_eq.1 hpid with hlt | heq
    · apply pubPhase_untouched (h.phase pid hlt)
      · exact matchedSids_of_no_matchedE pid (by simp [isMatchedE])
      · exact countP_append_no (by simp [isInvokedP]) _
      · intro sid
        exact countP_append_no (by simp [isInvokedFor]) _
      · simp [pubStart]
      · simp [pubStart]
      · refine countP_append_no ?_ _
        intro t ht
        simp only [List.mem_singleton] at ht
        subst ht
        simp only [isDispatchFor]
      · intro sid
        refine countP_append_no ?_ _
        intro t ht
        simp only [List.mem_singleton] at ht
        subst ht
        simp only [isDispatchSub]
      · refine countP_append_no ?_ _
        intro t ht
        simp only [List.mem_singleton] at ht
        subst ht
        simp only [isPubContFor, beq_eq_false_iff_ne, ne_eq]
        omega
      · rfl
    · subst heq
      unfold PubPhase
      have hmat : matchedSids s.nextPubId ((pubStart topic args s).log) = none := by
        simp only [pubStart]
        rw [matchedSids_of_no_matchedE s.nextPubId (by simp [isMatchedE])]
        exact hm0
      rw [hmat]
      refine ⟨?_, ?_, ?_, ?_, ?_⟩
      · simp only [pubStart, dispatchCountFor, List.countP_append]
        rw [← dispatchCountFor, hd0]
        simp [isDispatchFor]
      · exact hp0
      · simp only [pubStart, countInvokedP, List.countP_append]
        rw [← countInvokedP, hi0]
        simp [isInvokedP]
      · simp only [pubStart, List.mem_append, List.mem_singleton]
        rintro (hmem | hmem)
        · exact hdone0 hmem
        · exact absurd hmem (by simp)
      · have hth : Event.pubThrew s.nextPubId ∉ (pubStart topic args s).log := by
          simp only [pubStart, List.mem_append, List.mem_singleton]
          rintro (hmem | hmem)
          · exact hthrew0 hmem
          · exact absurd hmem (by simp)
        rw [if_neg hth]
        simp only [pubStart, pubContCountFor, List.countP_append]
        rw [← pubContCountFor, hc0]
        simp [isPubContFor]

lemma subs_filter_ids {subs : List Subscription} {n sid : Nat}
    (h1 : ∀ t ∈ subs, t.id < n) (h2 : (subs.map Subscription.id).Nodup) :
    (∀ t ∈ subs.filter fun t => t.id ≠ sid, t.id < n) ∧
    ((subs.filter fun t => t.id ≠ sid).map Subscription.id).Nodup := by
  constructor
  · intro t ht
    exact h1 t (List.mem_of_mem_filter ht)
  · exact h2.sublist ((List.filter_sublist subs).map Subscription.id)

lemma dispatchSub_imp {pid sid : Nat} {t : Task}
    (h : isDispatchSub pid sid t = true) : isDispatchFor pid t = true := by
  cases t <;> simp_all [isDispatchSub, isDispatchFor]

lemma dispatchCountSub_le (pid sid : Nat) (q : List Task) :
    dispatchCountSub pid sid q ≤ dispatchCountFor pid q := by
  apply List.countP_mono_left
  intro t _ hb
  exact dispatchSub_imp hb

lemma inv_runTask_dispatch {s : PSState} {pid : Nat} {m : SubscriptionMatch}
    {topic : String} {args : Args} {rest : List Task}
    (h : Inv s) (hq : s.queue = Task.dispatch pid m topic args :: rest) :
    Inv (runTask { s with queue := rest } (Task.dispatch pid m topic args)) := by
  have hpid_lt : pid < s.nextPubId := by
    by_contra hge
    have hf := h.fresh pid (Nat.le_of_not_lt hge)
    exact hf.2.1 (Task.dispatch pid m topic args) (hq ▸ List.mem_cons_self _ _) rfl
  have hph := h.phase pid hpid_lt
  unfold PubPhase at hph
  have hdc_s : dispatchCountFor pid s.queue = dispatchCountFor pid rest + 1 := by
    rw [hq]
    simp [dispatchCountFor, List.countP_cons, isDispatchFor]
  cases hms : matchedSids pid s.log with
  | none =>
    rw [hms] at hph
    rw [hph.1] at hdc_s
    omega
  | some sids =>
    rw [hms] at hph
    obtain ⟨hpc, hthrew, hph⟩ := hph
    by_cases hdone : Event.pubDone pid ∈ s.log
    · rw [if_pos hdone] at hph
      rw [hph.1] at hdc_s
      omega
    · rw [if_neg hdone] at hph
      obtain ⟨hpend, hone, htot, hper⟩ := hph
      -- abbreviations for the intermediate states of the dispatch body
      set sid := m.subscription.id with hsid
      set fullArgs := buildFullArgs args m.params m.wildcard topic with hfa
      set s2 : PSState := ({ s with
        queue := rest
        log := s.log ++ [Event.invoked sid pid fullArgs] } : PSState) with hs2
      obtain ⟨eQ, eL, hQ, hL, hP, hI, hNP, heQ, heL, hsubpres⟩ :=
        runHandler_spec m.subscription.handler sid pid s2
      set s3 := runHandler m.subscription.handler sid pid s2 with hs3
      set s4 : PSState := (if m.subscription.once then
          { s3 with subs := s3.subs.filter fun t => t.id ≠ sid } else s3) with hs4
      have hstep : runTask { s with queue := rest } (Task.dispatch pid m topic args)
          = finishDispatch pid s4 := by
        simp only [runTask, hs4, hs3, hs2, hsid, hfa]
      rw [hstep]
      -- component-level facts about s4
      have h4q : s4.queue = rest ++ eQ := by
        rw [hs4]
        split
        · exact hQ
        · exact hQ
      have h4log : s4.log = s.log ++ ([Event.invoked sid pid fullArgs] ++ eL) := by
        rw [hs4]
        have : s3.log = s2.log ++ eL := hL
        split
        · rw [this, hs2]; simp
        · rw [this, hs2]; simp
      have h4pend : s4.pending = s.pending := by
        rw [hs4]
        split
        · exact hP
        · exact hP
      have h4inf : s4.inflightCount = s.inflightCount := by
        rw [hs4]
        split
        · exact hI
        · exact hI
      have h4np : s4.nextPubId = s.nextPubId := by
        rw [hs4]
        split
        · exact hNP
        · exact hNP
      have h4subIds : (∀ t ∈ s4.subs, t.id < s4.nextSubId) ∧
          (s4.subs.map Subscription.id).Nodup := by
        have hpres := hsubpres h.subIdsLt h.subIdsNodup
        rw [hs4]
        split
        · exact ⟨(subs_filter_ids hpres.1 hpres.2).1, (subs_filter_ids hpres.1 hpres.2).2⟩
        · exact hpres
      -- extra log entries are not snapshots, starts, dones or throws
      have hexL : ∀ e ∈ [Event.invoked sid pid fullArgs] ++ eL,
          isMatchedE e = false ∧ isStartE e = false ∧ isDoneE e = false ∧
          (∀ p, e ≠ Event.pubDone p) ∧ (∀ p, e ≠ Event.pubThrew p) ∧
          (∀ p, eventMentionsPub p e = true → p = pid) := by
        intro e he
        rcases List.mem_append.1 he with he | he
        · simp only [List.mem_singleton] at he
          subst he
          refine ⟨rfl, rfl, rfl, by simp, by simp, ?_⟩
          intro p hp
          simp only [eventMentionsPub] at hp
          exact (beq_iff_eq.1 hp).symm
        · obtain ⟨hhe, hmen⟩ := heL e he
          obtain ⟨f1, f2, f3, f4, f5, f6, f7⟩ := handlerEvent_facts hhe
          exact ⟨f5, f1, f2, f6, f7, hmen⟩
      -- log counters at s4
      have h4mat : ∀ p, matchedSids p s4.log = matchedSids p s.log := by
        intro p
        rw [h4log]
        exact matchedSids_of_no_matchedE p fun e he => (hexL e he).1
      have h4invP : countInvokedP pid s4.log = countInvokedP pid s.log + 1 := by
        rw [h4log, ← List.append_assoc]
        unfold countInvokedP
        rw [countP_append_no (fun e he => by
          obtain ⟨hhe, _⟩ := heL e he
          exact (handlerEvent_facts hhe).2.2.1 pid)]
        simp [List.countP_append, List.countP_cons, isInvokedP]
      have h4invP_ne : ∀ p, p ≠ pid → countInvokedP p s4.log = countInvokedP p s.log := by
        intro p hp
        rw [h4log]
        unfold countInvokedP
        refine countP_append_no (fun e he => ?_) _
        cases hb : isInvokedP p e
        · rfl
        · exact absurd ((hexL e he).2.2.2.2.2 p (isInvokedP_mentions hb)) hp
      have h4invF : ∀ sid', countInvokedFor sid' pid s4.log
          = countInvokedFor sid' pid s.log + (if sid' = sid then 1 else 0) := by
        intro sid'
        rw [h4log, ← List.append_assoc]
        unfold countInvokedFor
        rw [countP_append_no (fun e he => by
          obtain ⟨hhe, _⟩ := heL e he
          exact (handlerEvent_facts hhe).2.2.2.1 sid' pid)]
        by_cases hs' : sid' = sid
        · subst hs'
          simp [List.countP_append, List.countP_cons, isInvokedFor]
        · simp [List.countP_append, List.countP_cons, isInvokedFor, Ne.symm hs', hs']
      have h4invF_ne : ∀ sid' p, p ≠ pid →
          countInvokedFor sid' p s4.log = countInvokedFor sid' p s.log := by
        intro sid' p hp
        rw [h4log]
        unfold countInvokedFor
        refine countP_append_no (fun e he => ?_) _
        cases hb : isInvokedFor sid' p e
        · rfl
        · exact absurd ((hexL e he).2.2.2.2.2 p (isInvokedP_mentions (invokedFor_imp hb))) hp
      have h4done : ∀ p, (Event.pubDone p ∈ s4.log) ↔ (Event.pubDone p ∈ s.log) := by
        intro p
        rw [h4log, List.mem_append]
        constructor
        · rintro (hm | hm)
          · exact hm
          · exact absurd rfl ((hexL _ hm).2.2.2.1 p)
        · exact Or.inl
      have h4threw : ∀ p, (Event.pubThrew p ∈ s4.log) ↔ (Event.pubThrew p ∈ s.log) := by
        intro p
        rw [h4log, List.mem_append]
        constructor
        · rintro (hm | hm)
          · exact hm
          · exact absurd rfl ((hexL _ hm).2.2.2.2.1 p)
        · exact Or.inl
      have h4starts : countStarts s4.log = countStarts s.log := by
        rw [h4log]
        exact countP_append_no (fun e he => (hexL e he).2.1) _
      have h4dones : countDones s4.log = countDones s.log := by
        rw [h4log]
        exact countP_append_no (fun e he => (hexL e he).2.2.1) _
      have h4nodupS : ∀ p ss, Event.pubMatched p ss ∈ s4.log → ss.Nodup := by
        intro p ss hm
        rw [h4log, List.mem_append] at hm
        rcases hm with hm | hm
        · exact h.sidsNodup p ss hm
        · have := (hexL _ hm).1
          simp [isMatchedE] at this
      -- queue counters at s4
      have heQ' : ∀ t ∈ eQ, isDispatchT t = false ∧ isPubContT t = false ∧ taskPid t = pid := by
        intro t ht
        rw [heQ t ht]
        exact ⟨rfl, rfl, rfl⟩
      have h4dc : dispatchCountFor pid s4.queue = dispatchCountFor pid rest := by
        rw [h4q]
        refine countP_append_no (fun t ht => ?_) _
        cases hb : isDispatchFor pid t
        · rfl
        · rw [heQ t ht] at hb
          simp [isDispatchFor] at hb
      have h4dc_ne : ∀ p, p ≠ pid → dispatchCountFor p s4.queue = dispatchCountFor p s.queue := by
        intro p hp
        rw [h4q, hq]
        unfold dispatchCountFor
        rw [countP_append_no (fun t ht => by
          rw [heQ t ht]
          rfl)]
        simp [List.countP_cons, isDispatchFor, Ne.symm hp]
      have h4ds : ∀ sid', dispatchCountSub pid sid' s4.queue
          = dispatchCountSub pid sid' rest := by
        intro sid'
        rw [h4q]
        refine countP_append_no (fun t ht => ?_) _
        rw [heQ t ht]
        rfl
      have h4ds_ne : ∀ p sid', p ≠ pid →
          dispatchCountSub p sid' s4.queue = dispatchCountSub p sid' s.queue := by
        intro p sid' hp
        rw [h4q, hq]
        unfold dispatchCountSub
        rw [countP_append_no (fun t ht => by rw [heQ t ht]; rfl)]
        simp [List.countP_cons, isDispatchSub, Ne.symm hp]
      have h4pc : ∀ p, pubContCountFor p s4.queue = pubContCountFor p rest := by
        intro p
        rw [h4q]
        refine countP_append_no (fun t ht => by rw [heQ t ht]; rfl) _
      have hpc_rest : ∀ p, pubContCountFor p rest = pubContCountFor p s.queue := by
        intro p
        rw [hq]
        simp [pubContCountFor, List.countP_cons, isPubContFor]
      have hdcsub_rest : ∀ sid', dispatchCountSub pid sid' s.queue
          = dispatchCountSub pid sid' rest + (if sid' = sid then 1 else 0) := by
        intro sid'
        rw [hq]
        by_cases hs' : sid' = sid
        · subst hs'
          simp [dispatchCountSub, List.countP_cons, isDispatchSub]
        · simp [dispatchCountSub, List.countP_cons, isDispatchSub, Ne.symm hs', hs']
      -- the pending entry for this publication
      have h4pget : pendingGet s4.pending pid = some (dispatchCountFor pid rest + 1) := by
        rw [h4pend, hpend, hdc_s]
      clear_value s4
      by_cases hlast : dispatchCountFor pid rest + 1 ≤ 1
      · -- this was the last dispatch: the publication settles now
        have hrest0 : dispatchCountFor pid rest = 0 := by omega
        have hfin : finishDispatch pid s4 = { s4 with
            pending := s4.pending.filter fun q => q.1 ≠ pid,
            inflightCount := s4.inflightCount - 1,
            log := s4.log ++ [Event.pubDone pid] } := by
          unfold finishDispatch
          rw [h4pget]
          simp [hrest0]
        rw [hfin]
        refine ⟨?_, ?_, ?_, ?_, ?_, ?_⟩
        · exact h4subIds.1
        · exact h4subIds.2
        · intro p ss hm
          rcases List.mem_append.1 hm with hm | hm
          · exact h4nodupS p ss hm
          · simp at hm
        · show s4.inflightCount - 1 = _
          rw [h4inf, h.inflightEq]
          unfold countStarts countDones
          rw [countP_append_no (by simp [isStartE]) s4.log,
            List.countP_append]
          have : List.countP isDoneE [Event.pubDone pid] = 1 := by simp [isDoneE]
          rw [this]
          unfold countStarts at h4starts
          unfold countDones at h4dones
          rw [h4starts, h4dones]
          push_cast
          ring
        · intro p hp
          rw [h4np] at hp
          have hf := h.fresh p hp
          have hne : p ≠ pid := by omega
          refine pidFresh_untouched hf ?_ ?_ ?_
          · intro e he
            rcases List.mem_append.1 he with he | he
            · rw [h4log] at he
              rcases List.mem_append.1 he with he | he
              · exact Or.inl he
              · exact Or.inr (by
                  cases hb : eventMentionsPub p e
                  · rfl
                  · exact absurd ((hexL e he).2.2.2.2.2 p hb) hne)
            · simp only [List.mem_singleton] at he
              subst he
              refine Or.inr ?_
              simp only [eventMentionsPub, beq_eq_false_iff_ne, ne_eq]
              omega
          · intro t ht
            rw [h4q] at ht
            rcases List.mem_append.1 ht with ht | ht
            · exact Or.inl (by rw [hq]; exact List.mem_cons_of_mem _ ht)
            · exact Or.inr (by rw [(heQ' t ht).2.2]; omega)
          · rw [pendingGet_filterOut_ne _ hne, h4pend]
            exact hf.2.2
        · intro p hp
          rw [h4np] at hp
          by_cases hpp : p = pid
          · subst hpp
            unfold PubPhase
            have hmat5 : matchedSids p (s4.log ++ [Event.pubDone p]) = some sids := by
              rw [matchedSids_of_no_matchedE p (by simp [isMatchedE]), h4mat]
              exact hms
            rw [hmat5]
            have hdone5 : Event.pubDone p ∈ s4.log ++ [Event.pubDone p] := by simp
            refine ⟨?_, ?_, ?_⟩
            · rw [h4pc, hpc_rest]
              exact hpc
            · intro hmem
              rcases List.mem_append.1 hmem with hmem | hmem
              · exact hthrew ((h4threw p).1 hmem)
              · simp at hmem
            · rw [if_pos hdone5]
              refine ⟨?_, pendingGet_filterOut _ _, ?_, ?_⟩
              · rw [h4dc]
                exact hrest0
              · unfold countInvokedP
                rw [countP_append_no (by simp [isInvokedP]) s4.log]
                show countInvokedP p s4.log = sids.length
                rw [h4invP]
                rw [hdc_s, hrest0] at htot
                omega
              · intro sid'
                unfold countInvokedFor
                rw [countP_append_no (by simp [isInvokedFor]) s4.log]
                show countInvokedFor sid' p s4.log = sids.count sid'
                rw [h4invF]
                have hsle := dispatchCountSub_le p sid' rest
                have hsub0 : dispatchCountSub p sid' rest = 0 := by omega
                have := hper sid'
                rw [hdcsub_rest sid', hsub0] at this
                omega
          · apply pubPhase_untouched (h.phase p hp)
            · show matchedSids p (s4.log ++ [Event.pubDone pid]) = _
              rw [matchedSids_of_no_matchedE p (by simp [isMatchedE]), h4mat]
            · show countInvokedP p (s4.log ++ [Event.pubDone pid]) = _
              unfold countInvokedP
              rw [countP_append_no (by simp [isInvokedP]) s4.log]
              exact h4invP_ne p hpp
            · intro sid'
              show countInvokedFor sid' p (s4.log ++ [Event.pubDone pid]) = _
              unfold countInvokedFor
              rw [countP_append_no (by simp [isInvokedFor]) s4.log]
              exact h4invF_ne sid' p hpp
            · show Event.pubDone p ∈ s4.log ++ [Event.pubDone pid] ↔ _
              rw [List.mem_append]
              constructor
              · rintro (hm | hm)
                · exact (h4done p).1 hm
                · simp only [List.mem_singleton, Event.pubDone.injEq] at hm
                  exact absurd hm hpp
              · intro hm
                exact Or.inl ((h4done p).2 hm)
            · show Event.pubThrew p ∈ s4.log ++ [Event.pubDone pid] ↔ _
              rw [List.mem_append]
              constructor
              · rintro (hm | hm)
                · exact (h4threw p).1 hm
                · simp at hm
              · intro hm
                exact Or.inl ((h4threw p).2 hm)
            · exact h4dc_ne p hpp
            · intro sid'
              exact h4ds_ne p sid' hpp
            · rw [h4pc, hpc_rest]
            · rw [pendingGet_filterOut_ne _ hpp, h4pend]
      · -- more dispatch closures of this publication remain queued
        have hfin : finishDispatch pid s4 = { s4 with
            pending := s4.pending.map fun q =>
              if q.1 = pid then (pid, dispatchCountFor pid rest + 1 - 1) else q } := by
          unfold finishDispatch
          rw [h4pget]
          simp only [if_neg hlast]
        rw [hfin]
        refine ⟨?_, ?_, ?_, ?_, ?_, ?_⟩
        · exact h4subIds.1
        · exact h4subIds.2
        · exact h4nodupS
        · show s4.inflightCount = _
          rw [h4inf, h.inflightEq]
          unfold countStarts countDones
          unfold countStarts at h4starts
          unfold countDones at h4dones
          rw [h4starts, h4dones]
        · intro p hp
          rw [h4np] at hp
          have hf := h.fresh p hp
          have hne : p ≠ pid := by omega
          refine pidFresh_untouched hf ?_ ?_ ?_
          · intro e he
            rw [h4log] at he
            rcases List.mem_append.1 he with he | he
            · exact Or.inl he
            · exact Or.inr (by
                cases hb : eventMentionsPub p e
                · rfl
                · exact absurd ((hexL e he).2.2.2.2.2 p hb) hne)
          · intro t ht
            rw [h4q] at ht
            rcases List.mem_append.1 ht with ht | ht
            · exact Or.inl (by rw [hq]; exact List.mem_cons_of_mem _ ht)
            · exact Or.inr (by rw [(heQ' t ht).2.2]; omega)
          · rw [pendingGet_update_ne _ hne, h4pend]
            exact hf.2.2
        · intro p hp
          rw [h4np] at hp
          by_cases hpp : p = pid
          · subst hpp
            unfold PubPhase
            have hmat5 : matchedSids p s4.log = some sids := by
              rw [h4mat]
              exact hms
            rw [hmat5]
            have hdone5 : Event.pubDone p ∉ s4.log := fun hm => hdone ((h4done p).1 hm)
            refine ⟨?_, ?_, ?_⟩
            · rw [h4pc, hpc_rest]
              exact hpc
            · intro hmem
              exact hthrew ((h4threw p).1 hmem)
            · rw [if_neg hdone5]
              refine ⟨?_, ?_, ?_, ?_⟩
              · rw [pendingGet_update, h4pget, h4dc]
                rfl
              · rw [h4dc]
                omega
              · rw [h4invP, h4dc]
                rw [hdc_s] at htot
                omega
              · intro sid'
                rw [h4invF sid', h4ds sid']
                have := hper sid'
                rw [hdcsub_rest sid'] at this
                by_cases hs' : sid' = sid
                · simp only [if_pos hs'] at this ⊢
                  omega
                · simp only [if_neg hs'] at this ⊢
                  omega
          · apply pubPhase_untouched (h.phase p hp)
            · rw [h4mat]
            · exact h4invP_ne p hpp
            · intro sid'
              exact h4invF_ne sid' p hpp
            · exact h4done p
            · exact h4threw p
            · exact h4dc_ne p hpp
            · intro sid'
              exact h4ds_ne p sid' hpp
            · rw [h4pc, hpc_rest]
            · rw [pendingGet_update_ne _ hpp, h4pend]

lemma matchedSids_eq_none {p : Nat} {l : List Event}
    (h : ∀ ss, Event.pubMatched p ss ∉ l) : matchedSids p l = none := by
  induction l with
  | nil => rfl
  | cons e rest ih =>
    have hrest := ih fun ss hm => h ss (List.mem_cons_of_mem _ hm)
    cases e with
    | pubMatched q ss =>
      have hq : ¬q = p := by
        intro hc
        subst hc
        exact h ss (List.mem_cons_self _ _)
      simp [matchedSids, hq, hrest]
    | pubStarted a => simpa [matchedSids] using hrest
    | invoked a b c => simpa [matchedSids] using hrest
    | settledOk a b => simpa [matchedSids] using hrest
    | errorLogged a b => simpa [matchedSids] using hrest
    | pubDone a => simpa [matchedSids] using hrest
    | pubThrew a => simpa [matchedSids] using hrest
    | subAdded a => simpa [matchedSids] using hrest

lemma matchedSids_append_none (p : Nat) (l₁ : List Event) {l₂ : List Event}
    (h : matchedSids p l₂ = none) :
    matchedSids p (l₁ ++ l₂) = matchedSids p l₁ := by
  rw [matchedSids_append]
  cases matchedSids p l₁ <;> simp [h]

/-- Log counters of publication `p` are unchanged by events that mention
only a different publication `pid`. -/
lemma log_counts_other {p pid : Nat} (hpp : p ≠ pid) {l extraL : List Event}
    (hmen : ∀ e ∈ extraL, ∀ q, eventMentionsPub q e = true → q = pid) :
    matchedSids p (l ++ extraL) = matchedSids p l ∧
    countInvokedP p (l ++ extraL) = countInvokedP p l ∧
    (∀ sid, countInvokedFor sid p (l ++ extraL) = countInvokedFor sid p l) ∧
    ((Event.pubDone p ∈ l ++ extraL) ↔ (Event.pubDone p ∈ l)) ∧
    ((Event.pubThrew p ∈ l ++ extraL) ↔ (Event.pubThrew p ∈ l)) := by
  have hnop : ∀ e ∈ extraL, eventMentionsPub p e = false := by
    intro e he
    cases hb : eventMentionsPub p e
    · rfl
    · exact absurd (hmen e he p hb) hpp
  refine ⟨?_, ?_, ?_, ?_, ?_⟩
  · refine matchedSids_append_none p l (matchedSids_eq_none ?_)
    intro ss hm
    have := hnop _ hm
    simp [eventMentionsPub] at this
  · refine countP_append_no (fun e he => ?_) l
    cases hb : isInvokedP p e
    · rfl
    · have := isInvokedP_mentions hb
      rw [hnop e he] at this
      exact this.symm
  · intro sid
    refine countP_append_no (fun e he => ?_) l
    cases hb : isInvokedFor sid p e
    · rfl
    · have := isInvokedP_mentions (invokedFor_imp hb)
      rw [hnop e he] at this
      exact this.symm
  · rw [List.mem_append]
    constructor
    · rintro (hm | hm)
      · exact hm
      · have := hnop _ hm
        simp [eventMentionsPub] at this
    · exact Or.inl
  · rw [List.mem_append]
    constructor
    · rintro (hm | hm)
      · exact hm
      · have := hnop _ hm
        simp [eventMentionsPub] at this
    · exact Or.inl

lemma taskPid_counts_false {p : Nat} {t : Task} (h : taskPid t ≠ p) :
    isDispatchFor p t = false ∧ isPubContFor p t = false ∧
    (∀ sid, isDispatchSub p sid t = false) := taskNotPid_counts h

/-- Queue counters of publication `p` are unchanged when a task of another
publication is dequeued and tasks of that other publication are enqueued. -/
lemma queue_counts_other {p pid : Nat} (hpp : p ≠ pid) {th : Task}
    {rest extraQ : List Task} (hth : taskPid th = pid)
    (hex : ∀ t ∈ extraQ, taskPid t = pid) :
    dispatchCountFor p (rest ++ extraQ) = dispatchCountFor p (th :: rest) ∧
    (∀ sid, dispatchCountSub p sid (rest ++ extraQ)
      = dispatchCountSub p sid (th :: rest)) ∧
    pubContCountFor p (rest ++ extraQ) = pubContCountFor p (th :: rest) := by
  have hthne : taskPid th ≠ p := by rw [hth]; exact Ne.symm hpp
  have hexne : ∀ t ∈ extraQ, taskPid t ≠ p := by
    intro t ht
    rw [hex t ht]
    exact Ne.symm hpp
  obtain ⟨f1, f2, f3⟩ := taskPid_counts_false hthne
  refine ⟨?_, ?_, ?_⟩
  · unfold dispatchCountFor
    rw [countP_append_no (fun t ht => (taskPid_counts_false (hexne t ht)).1) rest]
    simp [List.countP_cons, f1]
  · intro sid
    unfold dispatchCountSub
    rw [countP_append_no (fun t ht => (taskPid_counts_false (hexne t ht)).2.2 sid) rest]
    simp [List.countP_cons, f3 sid]
  · unfold pubContCountFor
    rw [countP_append_no (fun t ht => (taskPid_counts_false (hexne t ht)).2.1) rest]
    simp [List.countP_cons, f2]

lemma inv_runTask_pubCont {s : PSState} {pid : Nat} {topic : String} {args : Args}
    {rest : List Task} (h : Inv s)
    (hq : s.queue = Task.pubCont pid topic args :: rest) :
    Inv (runTask { s with queue := rest } (Task.pubCont pid topic args)) := by
  have hpid_lt : pid < s.nextPubId := by
    by_contra hge
    have hf := h.fresh pid (Nat.le_of_not_lt hge)
    exact hf.2.1 (Task.pubCont pid topic args) (hq ▸ List.mem_cons_self _ _) rfl
  have hph := h.phase pid hpid_lt
  unfold PubPhase at hph
  have hpc_s : pubContCountFor pid s.queue = pubContCountFor pid rest + 1 := by
    rw [hq]
    simp [pubContCountFor, List.countP_cons, isPubContFor]
  have hdcf_s : dispatchCountFor pid s.queue = dispatchCountFor pid rest := by
    rw [hq]
    simp [dispatchCountFor, List.countP_cons, isDispatchFor]
  cases hms : matchedSids pid s.log with
  | some sids =>
    rw [hms] at hph
    rw [hph.1] at hpc_s
    omega
  | none =>
    rw [hms] at hph
    obtain ⟨hdc0, hpend0, hinv0, hdone0, hc⟩ := hph
    have hthrew0 : Event.pubThrew pid ∉ s.log := by
      intro hmem
      rw [if_pos hmem] at hc
      rw [hc] at hpc_s
      omega
    rw [if_neg hthrew0] at hc
    have hpcrest : pubContCountFor pid rest = 0 := by omega
    have hdcrest : dispatchCountFor pid rest = 0 := by
      rw [← hdcf_s]
      exact hdc0
    have hrest_sub : ∀ t ∈ rest, t ∈ s.queue := by
      intro t ht
      rw [hq]
      exact List.mem_cons_of_mem _ ht
    show Inv (runTask { s with queue := rest } (Task.pubCont pid topic args))
    unfold runTask
    dsimp only
    cases hfs : filterSubs s.subs topic with
    | error e =>
      dsimp only
      have hmen : ∀ e' ∈ [Event.pubThrew pid], ∀ q,
          eventMentionsPub q e' = true → q = pid := by
        intro e' he' q hb
        simp only [List.mem_singleton] at he'
        subst he'
        simp only [eventMentionsPub] at hb
        exact (beq_iff_eq.1 hb).symm
      refine ⟨h.subIdsLt, h.subIdsNodup, ?_, ?_, ?_, ?_⟩
      · intro p ss hm
        rcases List.mem_append.1 hm with hm | hm
        · exact h.sidsNodup p ss hm
        · simp at hm
      · show s.inflightCount = _
        rw [h.inflightEq]
        unfold countStarts countDones
        rw [countP_append_no (by simp [isStartE]) s.log,
          countP_append_no (by simp [isDoneE]) s.log]
      · intro p hp
        have hp2 : s.nextPubId ≤ p := hp
        have hf := h.fresh p hp2
        have hne : p ≠ pid := by omega
        refine pidFresh_untouched hf ?_ ?_ hf.2.2
        · intro e' he'
          rcases List.mem_append.1 he' with he' | he'
          · exact Or.inl he'
          · refine Or.inr ?_
            cases hb : eventMentionsPub p e'
            · rfl
            · exact absurd (hmen e' he' p hb) hne
        · intro t ht
          exact Or.inl (hrest_sub t ht)
      · intro p hp
        have hp2 : p < s.nextPubId := hp
        by_cases hpp : p = pid
        · subst hpp
          unfold PubPhase
          have hmat : matchedSids p (s.log ++ [Event.pubThrew p]) = none := by
            rw [matchedSids_of_no_matchedE p (by simp [isMatchedE])]
            exact hms
          rw [hmat]
          refine ⟨hdcrest, hpend0, ?_, ?_, ?_⟩
          · unfold countInvokedP
            rw [countP_append_no (by simp [isInvokedP]) s.log]
            exact hinv0
          · intro hmem
            rcases List.mem_append.1 hmem with hmem | hmem
            · exact hdone0 hmem
            · simp at hmem
          · rw [if_pos (by simp)]
            exact hpcrest
        · obtain ⟨m1, m2, m3, m4, m5⟩ := @log_counts_other _ _ hpp s.log _ hmen
          obtain ⟨q1, q2, q3⟩ := @queue_counts_other _ _ hpp
            (Task.pubCont pid topic args) rest [] rfl (by simp)
          apply pubPhase_untouched (h.phase p hp2) m1 m2 m3 m4 m5
          · rw [← hq] at q1
            simpa using q1
          · intro sid'
            have := q2 sid'
            rw [← hq] at this
            simpa using this
          · rw [← hq] at q3
            simpa using q3
          · rfl
    | ok ms =>
      dsimp only
      have hsidsnd := filterSubs_sids_nodup hfs h.subIdsNodup
      by_cases hempty : ms.isEmpty = true
      · rw [List.isEmpty_iff] at hempty
        subst hempty
        simp only [List.isEmpty_nil, if_true, List.map_nil]
        have hmen : ∀ e' ∈ [Event.pubMatched pid [], Event.pubDone pid], ∀ q,
            eventMentionsPub q e' = true → q = pid := by
          intro e' he' q hb
          simp only [List.mem_cons, List.not_mem_nil, or_false] at he'
          rcases he' with rfl | rfl
          · simp only [eventMentionsPub] at hb
            exact (beq_iff_eq.1 hb).symm
          · simp only [eventMentionsPub] at hb
            exact (beq_iff_eq.1 hb).symm
        have hlg : (s.log ++ [Event.pubMatched pid []]) ++ [Event.pubDone pid]
            = s.log ++ [Event.pubMatched pid [], Event.pubDone pid] := by
          simp
        refine ⟨h.subIdsLt, h.subIdsNodup, ?_, ?_, ?_, ?_⟩
        · intro p ss hm
          rw [hlg] at hm
          rcases List.mem_append.1 hm with hm | hm
          · exact h.sidsNodup p ss hm
          · simp only [List.mem_cons, List.not_mem_nil, or_false] at hm
            rcases hm with hm | hm
            · cases hm
              simp
            · cases hm
        · show s.inflightCount - 1 = _
          rw [h.inflightEq]
          unfold countStarts countDones
          rw [hlg]
          rw [countP_append_no (by simp [isStartE, List.mem_cons]) s.log,
            List.countP_append]
          have h1 : List.countP isDoneE [Event.pubMatched pid [], Event.pubDone pid]
              = 1 := by
            simp [isDoneE, List.countP_cons]
          rw [h1]
          push_cast
          ring
        · intro p hp
          have hp2 : s.nextPubId ≤ p := hp
          have hf := h.fresh p hp2
          have hne : p ≠ pid := by omega
          refine pidFresh_untouched hf ?_ ?_ hf.2.2
          · intro e' he'
            rw [hlg] at he'
            rcases List.mem_append.1 he' with he' | he'
            · exact Or.inl he'
            · refine Or.inr ?_
              cases hb : eventMentionsPub p e'
              · rfl
              · exact absurd (hmen e' he' p hb) hne
          · intro t ht
            exact Or.inl (hrest_sub t ht)
        · intro p hp
          have hp2 : p < s.nextPubId := hp
          by_cases hpp : p = pid
          · subst hpp
            unfold PubPhase
            have hmat : matchedSids p ((s.log ++ [Event.pubMatched p []])
                ++ [Event.pubDone p]) = some [] := by
              rw [matchedSids_append, matchedSids_append, hms]
              simp [matchedSids]
            rw [hmat]
            refine ⟨hpcrest, ?_, ?_⟩
            · intro hmem
              rw [hlg] at hmem
              rcases List.mem_append.1 hmem with hmem | hmem
              · exact hthrew0 hmem
              · simp at hmem
            · rw [if_pos (by simp)]
              refine ⟨hdcrest, hpend0, ?_, ?_⟩
              · unfold countInvokedP
                have hside : ∀ e ∈ [Event.pubMatched p ([] : List Nat), Event.pubDone p],
                    isInvokedP p e = false := by
                  simp [isInvokedP]
                rw [hlg, countP_append_no hside s.log]
                simpa [countInvokedP] using hinv0
              · intro sid'
                unfold countInvokedFor
                have hside : ∀ e ∈ [Event.pubMatched p ([] : List Nat), Event.pubDone p],
                    isInvokedFor sid' p e = false := by
                  simp [isInvokedFor]
                rw [hlg, countP_append_no hside s.log]
                simpa [countInvokedFor] using countInvokedFor_zero hinv0
          · obtain ⟨m1, m2, m3, m4, m5⟩ := @log_counts_other _ _ hpp s.log _ hmen
            obtain ⟨q1, q2, q3⟩ := @queue_counts_other _ _ hpp
              (Task.pubCont pid topic args) rest [] rfl (by simp)
            refine pubPhase_untouched (h.phase p hp2) ?_ ?_ ?_ ?_ ?_ ?_ ?_ ?_ rfl
            · show matchedSids p ((s.log ++ [Event.pubMatched pid []])
                ++ [Event.pubDone pid]) = _
              rw [hlg]
              exact m1
            · show countInvokedP p ((s.log ++ [Event.pubMatched pid []])
                ++ [Event.pubDone pid]) = _
              rw [hlg]
              exact m2
            · intro sid'
              show countInvokedFor sid' p ((s.log ++ [Event.pubMatched pid []])
                ++ [Event.pubDone pid]) = _
              rw [hlg]
              exact m3 sid'
            · show Event.pubDone p ∈ (s.log ++ [Event.pubMatched pid []])
                ++ [Event.pubDone pid] ↔ _
              rw [hlg]
              exact m4
            · show Event.pubThrew p ∈ (s.log ++ [Event.pubMatched pid []])
                ++ [Event.pubDone pid] ↔ _
              rw [hlg]
              exact m5
            · rw [← hq] at q1
              simpa using q1
            · intro sid'
              have := q2 sid'
              rw [← hq] at this
              simpa using this
            · rw [← hq] at q3
              simpa using q3
      · -- at least one subscription matched: spawn the dispatch closures
        rw [if_neg hempty]
        set sids := ms.map (fun m : SubscriptionMatch => m.subscription.id) with hsds
        set spawned := ms.map (fun m => Task.dispatch pid m topic args) with hspn
        have hmen : ∀ e' ∈ [Event.pubMatched pid sids], ∀ q,
            eventMentionsPub q e' = true → q = pid := by
          intro e' he' q hb
          simp only [List.mem_singleton] at he'
          subst he'
          simp only [eventMentionsPub] at hb
          exact (beq_iff_eq.1 hb).symm
        have hspawnPid : ∀ t ∈ spawned, taskPid t = pid := by
          rw [hspn]
          exact spawn_taskPid pid topic args ms
        refine ⟨h.subIdsLt, h.subIdsNodup, ?_, ?_, ?_, ?_⟩
        · intro p ss hm
          rcases List.mem_append.1 hm with hm | hm
          · exact h.sidsNodup p ss hm
          · simp only [List.mem_singleton, Event.pubMatched.injEq] at hm
            rw [hm.2]
            exact hsidsnd
        · show s.inflightCount = _
          rw [h.inflightEq]
          unfold countStarts countDones
          rw [countP_append_no (by simp [isStartE]) s.log,
            countP_append_no (by simp [isDoneE]) s.log]
        · intro p hp
          have hp2 : s.nextPubId ≤ p := hp
          have hf := h.fresh p hp2
          have hne : p ≠ pid := by omega
          refine pidFresh_untouched hf ?_ ?_ ?_
          · intro e' he'
            rcases List.mem_append.1 he' with he' | he'
            · exact Or.inl he'
            · refine Or.inr ?_
              cases hb : eventMentionsPub p e'
              · rfl
              · exact absurd (hmen e' he' p hb) hne
          · intro t ht
            rcases List.mem_append.1 ht with ht | ht
            · exact Or.inl (hrest_sub t ht)
            · refine Or.inr ?_
              rw [hspawnPid t ht]
              exact Ne.symm hne
          · rw [pendingGet_append]
            rw [hf.2.2]
            simp [pendingGet, Ne.symm hne]
        · intro p hp
          have hp2 : p < s.nextPubId := hp
          by_cases hpp : p = pid
          · subst hpp
            unfold PubPhase
            have hmat : matchedSids p (s.log ++ [Event.pubMatched p sids])
                = some sids := by
              rw [matchedSids_append, hms]
              simp [matchedSids]
            rw [hmat]
            have hdone1 : Event.pubDone p ∉ s.log ++ [Event.pubMatched p sids] := by
              intro hmem
              rcases List.mem_append.1 hmem with hmem | hmem
              · exact hdone0 hmem
              · simp at hmem
            have hpcspawn : pubContCountFor p spawned = 0 := by
              rw [hspn]
              exact spawn_pubCont p p topic args ms
            have hdcspawn : dispatchCountFor p spawned = ms.length := by
              rw [hspn]
              exact spawn_dispatchFor p topic args ms
            have hlen : 1 ≤ ms.length := by
              cases ms with
              | nil => simp at hempty
              | cons a b => simp
            refine ⟨?_, ?_, ?_⟩
            · unfold pubContCountFor
              rw [List.countP_append]
              unfold pubContCountFor at hpcrest hpcspawn
              omega
            · intro hmem
              rcases List.mem_append.1 hmem with hmem | hmem
              · exact hthrew0 hmem
              · simp at hmem
            · rw [if_neg hdone1]
              have hdcall : dispatchCountFor p (rest ++ spawned) = ms.length := by
                unfold dispatchCountFor
                rw [List.countP_append]
                unfold dispatchCountFor at hdcrest hdcspawn
                omega
              refine ⟨?_, ?_, ?_, ?_⟩
              · rw [pendingGet_append, hpend0, hdcall]
                simp [pendingGet]
              · rw [hdcall]
                exact hlen
              · unfold countInvokedP
                rw [countP_append_no (by simp [isInvokedP]) s.log, hdcall]
                unfold countInvokedP at hinv0
                rw [hinv0, hsds]
                simp
              · intro sid'
                unfold countInvokedFor
                rw [countP_append_no (by simp [isInvokedFor]) s.log]
                have hz : countInvokedFor sid' p s.log = 0 := countInvokedFor_zero hinv0
                unfold countInvokedFor at hz
                rw [hz]
                unfold dispatchCountSub
                rw [List.countP_append]
                have hs1 : List.countP (isDispatchSub p sid') rest = 0 := by
                  have := dispatchCountSub_le p sid' rest
                  unfold dispatchCountSub dispatchCountFor at this hdcrest
                  omega
                have hs2 : List.countP (isDispatchSub p sid') spawned
                    = sids.count sid' := by
                  rw [hspn, hsds]
                  exact spawn_dispatchSub p sid' topic args ms
                omega
          · obtain ⟨m1, m2, m3, m4, m5⟩ := @log_counts_other _ _ hpp s.log _ hmen
            obtain ⟨q1, q2, q3⟩ := @queue_counts_other _ _ hpp
              (Task.pubCont pid topic args) rest spawned rfl hspawnPid
            refine pubPhase_untouched (h.phase p hp2) m1 m2 m3 m4 m5 ?_ ?_ ?_ ?_
            · rw [← hq] at q1
              exact q1
            · intro sid'
              have := q2 sid'
              rw [← hq] at this
              exact this
            · rw [← hq] at q3
              exact q3
            · rw [pendingGet_append]
              cases hpg : pendingGet s.pending p with
              | some k => rfl
              | none => simp [pendingGet, Ne.symm hpp]

lemma inv_runTask_handlerCont {s : PSState} {sid pid : Nat} {rest : List Task}
    (h : Inv s) (hq : s.queue = Task.handlerCont sid pid :: rest) :
    Inv (runTask { s with queue := rest } (Task.handlerCont sid pid)) := by
  show Inv { s with queue := rest, log := s.log ++ [Event.settledOk sid pid] }
  refine ⟨h.subIdsLt, h.subIdsNodup, ?_, ?_, ?_, ?_⟩
  · intro p ss hm
    rcases List.mem_append.1 hm with hm | hm
    · exact h.sidsNodup p ss hm
    · simp at hm
  · show s.inflightCount = _
    rw [h.inflightEq]
    unfold countStarts countDones
    rw [countP_append_no (by simp [isStartE]) s.log,
      countP_append_no (by simp [isDoneE]) s.log]
  · intro p hp
    have hp2 : s.nextPubId ≤ p := hp
    have hf := h.fresh p hp2
    have hne : pid ≠ p := by
      intro hc
      exact hf.2.1 (Task.handlerCont sid pid) (hq ▸ List.mem_cons_self _ _) hc
    refine pidFresh_untouched hf ?_ ?_ hf.2.2
    · intro e he
      rcases List.mem_append.1 he with he | he
      · exact Or.inl he
      · simp only [List.mem_singleton] at he
        subst he
        refine Or.inr ?_
        simp only [eventMentionsPub, beq_eq_false_iff_ne, ne_eq]
        exact hne
    · intro t ht
      refine Or.inl ?_
      rw [hq]
      exact List.mem_cons_of_mem _ ht
  · intro p hp
    have hp2 : p < s.nextPubId := hp
    refine pubPhase_untouched (h.phase p hp2) ?_ ?_ ?_ ?_ ?_ ?_ ?_ ?_ rfl
    · exact matchedSids_of_no_matchedE p (by simp [isMatchedE])
    · exact countP_append_no (by simp [isInvokedP]) s.log
    · intro sid'
      exact countP_append_no (by simp [isInvokedFor]) s.log
    · simp
    · simp
    · rw [hq]
      simp [dispatchCountFor, List.countP_cons, isDispatchFor]
    · intro sid'
      rw [hq]
      simp [dispatchCountSub, List.countP_cons, isDispatchSub]
    · rw [hq]
      simp [pubContCountFor, List.countP_cons, isPubContFor]

lemma inv_step {s : PSState} (h : Inv s) : Inv (step s) := by
  unfold step
  cases hq : s.queue with
  | nil => exact h
  | cons t rest =>
    cases t with
    | pubCont pid topic args => exact inv_runTask_pubCont h hq
    | dispatch pid m topic args => exact inv_runTask_dispatch h hq
    | handlerCont sid pid => exact inv_runTask_handlerCont h hq

lemma inv_runSched (n : Nat) : ∀ {s : PSState}, Inv s → Inv (runSched n s) := by
  induction n with
  | zero => intro s h; exact h
  | succ k ih => intro s h; exact ih (inv_step h)

lemma inv_initState : Inv initState := by
  refine ⟨?_, ?_, ?_, ?_, ?_, ?_⟩
  · intro t ht
    simp [initState] at ht
  · simp [initState]
  · intro pid sids hm
    simp [initState] at hm
  · simp [initState, countStarts, countDones]
  · intro pid _
    exact ⟨fun e he => by simp [initState] at he,
      fun t ht => by simp [initState] at ht, rfl⟩
  · intro pid hpid
    simp [initState] at hpid
lemma inv_execActions (acts : List Action) : ∀ {s : PSState}, Inv s →
    Inv (execActions s acts) := by
  induction acts with
  | nil => intro s h; exact h
  | cons a rest ih =>
    intro s h
    cases a with
    | sub pat hspec once =>
      show Inv (match subAddCore pat hspec once s with
        | .ok s' => execActions s' rest
        | .error _ => s)
      cases hk : subAddCore pat hspec once s with
      | ok s' => exact ih (inv_subAdd h hk)
      | error e => exact h
    | pub topic args => exact ih (inv_pubStart topic args h)

lemma inv_execProgram (phases : List (List Action)) (fuel : Nat) :
    Inv (execProgram phases fuel) := by
  suffices hgen : ∀ s, Inv s →
      Inv (phases.foldl (fun s acts => runSched fuel (execActions s acts)) s) by
    exact hgen initState inv_initState
  induction phases with
  | nil => intro s h; exact h
  | cons acts rest ih =>
    intro s h
    exact ih _ (inv_runSched fuel (inv_execActions acts h))
/-! ## Frame lemmas for the scheduler: queue shapes, log growth -/

lemma finishDispatch_frame (pid : Nat) (s : PSState) :
    (finishDispatch pid s).queue = s.queue ∧
    (finishDispatch pid s).subs = s.subs ∧
    (finishDispatch pid s).nextPubId = s.nextPubId ∧
    ∃ ex, (finishDispatch pid s).log = s.log ++ ex := by
  unfold finishDispatch
  cases h : pendingGet s.pending pid with
  | none => exact ⟨rfl, rfl, rfl, [], by simp⟩
  | some k =>
    dsimp only
    by_cases hk : k ≤ 1
    · rw [if_pos hk]
      exact ⟨rfl, rfl, rfl, [Event.pubDone pid], rfl⟩
    · rw [if_neg hk]
      exact ⟨rfl, rfl, rfl, [], by simp⟩

lemma runHandler_queue (h : HandlerSpec) (sid pid : Nat) (s : PSState) :
    (runHandler h sid pid s).queue = s.queue ∨
    (runHandler h sid pid s).queue = s.queue ++ [Task.handlerCont sid pid] := by
  cases h with
  | immediate => left; rfl
  | afterTick => right; rfl
  | throwing => left; rfl
  | subscribing pat =>
    cases hk : subAddCore pat .immediate false s with
    | ok s' =>
      obtain ⟨hq, _⟩ := subAddCore_spec hk
      left
      simp [runHandler, hk, hq]
    | error e => left; simp [runHandler, hk]

lemma runHandler_nextPubId (h : HandlerSpec) (sid pid : Nat) (s : PSState) :
    (runHandler h sid pid s).nextPubId = s.nextPubId := by
  cases h with
  | immediate => rfl
  | afterTick => rfl
  | throwing => rfl
  | subscribing pat =>
    cases hk : subAddCore pat .immediate false s with
    | ok s' =>
      obtain ⟨_, _, _, hnp, _⟩ := subAddCore_spec hk
      simp [runHandler, hk, hnp]
    | error e => simp [runHandler, hk]

lemma runHandler_log_mono (h : HandlerSpec) (sid pid : Nat) (s : PSState) :
    ∃ ex, (runHandler h sid pid s).log = s.log ++ ex := by
  obtain ⟨eq, el, hq, hl, _⟩ := runHandler_spec h sid pid s
  exact ⟨el, hl⟩

/-- Shape of the state after one dispatch task: the queue gains at most the
handler's own continuation, the log only grows, `nextPubId` is unchanged. -/
lemma runTask_dispatch_frame (s : PSState) (pid : Nat) (m : SubscriptionMatch)
    (topic : String) (args : Args) :
    ((runTask s (.dispatch pid m topic args)).queue = s.queue ∨
      (runTask s (.dispatch pid m topic args)).queue =
        s.queue ++ [Task.handlerCont m.subscription.id pid]) ∧
    (∃ ex, (runTask s (.dispatch pid m topic args)).log = s.log ++ ex) ∧
    (runTask s (.dispatch pid m topic args)).nextPubId = s.nextPubId := by
  show ((finishDispatch pid _).queue = _ ∨ (finishDispatch pid _).queue = _) ∧
    (∃ ex, (finishDispatch pid _).log = _ ++ ex) ∧ (finishDispatch pid _).nextPubId = _
  set s1 : PSState :=
    { s with log := s.log ++ [.invoked m.subscription.id pid
        (buildFullArgs args m.params m.wildcard topic)] } with hs1
  set s2 : PSState := runHandler m.subscription.handler m.subscription.id pid s1 with hs2
  set s3 : PSState := if m.subscription.once then
      { s2 with subs := s2.subs.filter fun t => t.id ≠ m.subscription.id } else s2 with hs3
  have h3q : s3.queue = s2.queue := by
    rw [hs3]; by_cases ho : m.subscription.once <;> simp [ho]
  have h3l : s3.log = s2.log := by
    rw [hs3]; by_cases ho : m.subscription.once <;> simp [ho]
  have h3n : s3.nextPubId = s2.nextPubId := by
    rw [hs3]; by_cases ho : m.subscription.once <;> simp [ho]
  obtain ⟨hfq, hfs, hfn, exf, hfl⟩ := finishDispatch_frame pid s3
  have h2q := runHandler_queue m.subscription.handler m.subscription.id pid s1
  obtain ⟨ex2, h2l⟩ := runHandler_log_mono m.subscription.handler m.subscription.id pid s1
  have h2n := runHandler_nextPubId m.subscription.handler m.subscription.id pid s1
  rw [← hs2] at h2q h2l h2n
  refine ⟨?_, ?_, ?_⟩
  · rw [hfq, h3q]
    rcases h2q with h | h
    · left; rw [h]
    · right; rw [h]
  · refine ⟨[.invoked m.subscription.id pid
      (buildFullArgs args m.params m.wildcard topic)] ++ ex2 ++ exf, ?_⟩
    rw [hfl, h3l, h2l]
    simp [hs1]
  · rw [hfn, h3n, h2n]

lemma runTask_log_mono (s : PSState) (t : Task) :
    ∃ ex, (runTask s t).log = s.log ++ ex := by
  cases t with
  | pubCont pid topic args =>
    show (∃ ex, (match filterSubs s.subs topic with
      | .error _ => _
      | .ok ms => _ : PSState).log = s.log ++ ex)
    cases hf : filterSubs s.subs topic with
    | error e => exact ⟨[.pubThrew pid], rfl⟩
    | ok ms =>
      by_cases he : ms.isEmpty
      · refine ⟨[Event.pubMatched pid (ms.map fun m : SubscriptionMatch =>
          m.subscription.id), Event.pubDone pid], ?_⟩
        simp [he]
      · refine ⟨[Event.pubMatched pid (ms.map fun m : SubscriptionMatch =>
          m.subscription.id)], ?_⟩
        simp [he]
  | dispatch pid m topic args => exact (runTask_dispatch_frame s pid m topic args).2.1
  | handlerCont sid pid => exact ⟨[.settledOk sid pid], rfl⟩

lemma runTask_nextPubId (s : PSState) (t : Task) :
    (runTask s t).nextPubId = s.nextPubId := by
  cases t with
  | pubCont pid topic args =>
    show (match filterSubs s.subs topic with
      | .error _ => _
      | .ok ms => _ : PSState).nextPubId = s.nextPubId
    cases hf : filterSubs s.subs topic with
    | error e => rfl
    | ok ms => by_cases he : ms.isEmpty <;> simp [he]
  | dispatch pid m topic args => exact (runTask_dispatch_frame s pid m topic args).2.2
  | handlerCont sid pid => rfl

lemma step_log_mono (s : PSState) : ∃ ex, (step s).log = s.log ++ ex := by
  unfold step
  cases hq : s.queue with
  | nil => exact ⟨[], by simp⟩
  | cons t rest => exact runTask_log_mono { s with queue := rest } t

lemma step_nextPubId (s : PSState) : (step s).nextPubId = s.nextPubId := by
  unfold step
  cases hq : s.queue with
  | nil => rfl
  | cons t rest => exact runTask_nextPubId { s with queue := rest } t

lemma runSched_log_mono (n : Nat) : ∀ s : PSState,
    ∃ ex, (runSched n s).log = s.log ++ ex := by
  induction n with
  | zero => intro s; exact ⟨[], by simp [runSched]⟩
  | succ k ih =>
    intro s
    obtain ⟨ex1, h1⟩ := step_log_mono s
    obtain ⟨ex2, h2⟩ := ih (step s)
    exact ⟨ex1 ++ ex2, by rw [runSched, h2, h1, List.append_assoc]⟩

lemma runSched_nextPubId (n : Nat) : ∀ s : PSState,
    (runSched n s).nextPubId = s.nextPubId := by
  induction n with
  | zero => intro s; rfl
  | succ k ih => intro s; rw [runSched, ih, step_nextPubId]

/-- A recorded snapshot survives any further scheduling. -/
lemma matchedSids_runSched {pid : Nat} {s : PSState} {sids : List Nat}
    (h : matchedSids pid s.log = some sids) (n : Nat) :
    matchedSids pid (runSched n s).log = some sids := by
  obtain ⟨ex, hex⟩ := runSched_log_mono n s
  rw [hex, matchedSids_append, h]

lemma matchedSids_mem {pid : Nat} : ∀ {l : List Event} {sids : List Nat},
    matchedSids pid l = some sids → Event.pubMatched pid sids ∈ l := by
  intro l
  induction l with
  | nil => intro sids h; simp [matchedSids] at h
  | cons e rest ih =>
    intro sids h
    cases e with
    | pubMatched p sids0 =>
      by_cases hp : p = pid
      · subst hp
        rw [matchedSids, if_pos rfl] at h
        cases h
        exact List.mem_cons_self _ _
      · rw [matchedSids, if_neg hp] at h
        exact List.mem_cons_of_mem _ (ih h)
    | pubStarted p => exact List.mem_cons_of_mem _ (ih h)
    | invoked a b c => exact List.mem_cons_of_mem _ (ih h)
    | settledOk a b => exact List.mem_cons_of_mem _ (ih h)
    | errorLogged a b => exact List.mem_cons_of_mem _ (ih h)
    | pubDone a => exact List.mem_cons_of_mem _ (ih h)
    | pubThrew a => exact List.mem_cons_of_mem _ (ih h)
    | subAdded a => exact List.mem_cons_of_mem _ (ih h)

/-- A publication id with a recorded snapshot has been allocated. -/
lemma matchedSids_lt {s : PSState} (hinv : Inv s) {pid : Nat} {sids : List Nat}
    (h : matchedSids pid s.log = some sids) : pid < s.nextPubId := by
  by_contra hge
  have hf := hinv.fresh pid (Nat.le_of_not_lt hge)
  rw [matchedSids_none_of_fresh hf.1] at h
  exact absurd h (by simp)

/-! ## Draining a queue of dispatch and continuation tasks -/

lemma step_no_pubCont {s : PSState} (h : ∀ t ∈ s.queue, isPubContT t = false) :
    ∀ t ∈ (step s).queue, isPubContT t = false := by
  unfold step
  cases hq : s.queue with
  | nil => intro t ht; exact h t (by rw [hq] at ht; exact absurd ht (by simp))
  | cons t0 rest =>
    have hrest : ∀ t ∈ rest, isPubContT t = false := fun t ht =>
      h t (by rw [hq]; exact List.mem_cons_of_mem _ ht)
    cases t0 with
    | pubCont pid topic args =>
      have := h (Task.pubCont pid topic args) (by rw [hq]; exact List.mem_cons_self _ _)
      simp [isPubContT] at this
    | dispatch pid m topic args =>
      intro t ht
      rcases (runTask_dispatch_frame { s with queue := rest } pid m topic args).1
        with hcase | hcase
      · rw [hcase] at ht
        exact hrest t ht
      · rw [hcase] at ht
        rcases List.mem_append.1 ht with ht | ht
        · exact hrest t ht
        · simp only [List.mem_singleton] at ht
          subst ht
          rfl
    | handlerCont sid pid =>
      intro t ht
      exact hrest t ht

lemma step_measure {s : PSState} (h : ∀ t ∈ s.queue, isPubContT t = false)
    {t0 : Task} {rest : List Task} (hq : s.queue = t0 :: rest) :
    queueMeasure (step s).queue < queueMeasure s.queue := by
  unfold step
  rw [hq]
  cases t0 with
  | pubCont pid topic args =>
    have := h (Task.pubCont pid topic args) (by rw [hq]; exact List.mem_cons_self _ _)
    simp [isPubContT] at this
  | dispatch pid m topic args =>
    rcases (runTask_dispatch_frame { s with queue := rest } pid m topic args).1
      with hcase | hcase
    · rw [hcase]
      simp only [queueMeasure, hq, List.length_cons, List.countP_cons]
      simp [isDispatchT]
      omega
    · rw [hcase]
      simp only [queueMeasure, hq, List.length_cons, List.countP_cons,
        List.countP_append, List.length_append]
      simp [isDispatchT, List.countP_cons]
      try omega
  | handlerCont sid pid =>
    show queueMeasure rest < queueMeasure (Task.handlerCont sid pid :: rest)
    simp only [queueMeasure, List.length_cons, List.countP_cons]
    simp [isDispatchT]
    try omega

lemma step_empty {s : PSState} (h : s.queue = []) : step s = s := by
  unfold step
  rw [h]

lemma runSched_drain : ∀ (n : Nat) (s : PSState),
    (∀ t ∈ s.queue, isPubContT t = false) →
    queueMeasure s.queue ≤ n → (runSched n s).queue = [] := by
  intro n
  induction n with
  | zero =>
    intro s _ hle
    simp only [queueMeasure, Nat.le_zero, Nat.add_eq_zero] at hle
    exact List.length_eq_zero.1 hle.1
  | succ k ih =>
    intro s hnp hle
    cases hq : s.queue with
    | nil =>
      rw [runSched, step_empty hq]
      exact ih s hnp (by rw [hq]; simp [queueMeasure])
    | cons t0 rest =>
      have hlt := step_measure hnp hq
      rw [runSched]
      exact ih (step s) (step_no_pubCont hnp) (by omega)
/-! ## The C7 scenario: n subscriptions on one topic, one publication -/

lemma construct_c7 : BasePathMatcher.construct "/error/test" = .ok c7Matcher := by
  rfl

lemma c7_matchPath :
    c7Matcher.matchPath "/error/test" = .ok ⟨"/error/test", [], [], true⟩ := by
  rfl

lemma c7_filterSubsMap (h : HandlerSpec) (i : Nat) :
    filterSubsMap "/error/test" ⟨i, "/error/test", c7Matcher, h, false, []⟩ =
      .ok ⟨⟨i, "/error/test", c7Matcher, h, false, []⟩, true, some [], some []⟩ := by
  simp [filterSubsMap, memoGet, c7_matchPath, Bind.bind, Except.bind, pure, Except.pure]

lemma c7_mapM (hs : List HandlerSpec) : ∀ i : Nat,
    (c7Subs hs i).mapM (filterSubsMap "/error/test") =
      .ok ((c7Subs hs i).map fun sub =>
        (⟨sub, true, some [], some []⟩ : SubscriptionMatch)) := by
  induction hs with
  | nil => intro i; rfl
  | cons h rest ih =>
    intro i
    rw [c7Subs, List.mapM_cons, c7_filterSubsMap, ih (i + 1)]
    simp [Bind.bind, Except.bind, pure, Except.pure, c7Subs]

lemma c7_filterSubs (hs : List HandlerSpec) (i : Nat) :
    filterSubs (c7Subs hs i) "/error/test" =
      .ok ((c7Subs hs i).map fun sub =>
        (⟨sub, true, some [], some []⟩ : SubscriptionMatch)) := by
  unfold filterSubs
  rw [c7_mapM hs i]
  simp only [Bind.bind, Except.bind, pure, Except.pure, Except.ok.injEq]
  apply List.filter_eq_self.mpr
  intro m hm
  obtain ⟨sub, hsub, rfl⟩ := List.mem_map.1 hm
  rfl

lemma c7Subs_ids (hs : List HandlerSpec) : ∀ i : Nat,
    ((c7Subs hs i).map fun sub =>
        (⟨sub, true, some [], some []⟩ : SubscriptionMatch)).map
      (fun m => m.subscription.id) = List.range' i hs.length := by
  induction hs with
  | nil => intro i; simp [c7Subs]
  | cons h rest ih =>
    intro i
    simp [c7Subs, List.range', ih (i + 1)]

lemma c7Subs_length (hs : List HandlerSpec) : ∀ i, (c7Subs hs i).length = hs.length := by
  induction hs with
  | nil => intro i; rfl
  | cons h rest ih => intro i; simp [c7Subs, ih (i + 1)]

lemma c7SubLog_matchedSids (hs : List HandlerSpec) (pid : Nat) : ∀ i,
    matchedSids pid (c7SubLog hs i) = none := by
  induction hs with
  | nil => intro i; rfl
  | cons h rest ih => intro i; simp [c7SubLog, matchedSids, ih (i + 1)]

lemma subAddCore_c7 (h : HandlerSpec) (once : Bool) (s : PSState) :
    subAddCore "/error/test" h once s =
      .ok { s with
        subs := s.subs ++ [⟨s.nextSubId, "/error/test", c7Matcher, h, once, []⟩],
        nextSubId := s.nextSubId + 1,
        log := s.log ++ [.subAdded s.nextSubId] } := by
  unfold subAddCore
  rw [construct_c7]

lemma c7_exec (hs : List HandlerSpec) : ∀ s : PSState,
    execActions s (c7Actions hs) =
      pubStart "/error/test" [] { s with
        subs := s.subs ++ c7Subs hs s.nextSubId,
        nextSubId := s.nextSubId + hs.length,
        log := s.log ++ c7SubLog hs s.nextSubId } := by
  unfold c7Actions
  induction hs with
  | nil =>
    intro s
    simp [execActions, c7Subs, c7SubLog]
  | cons h rest ih =>
    intro s
    rw [List.map_cons, List.cons_append]
    show (match subAddCore "/error/test" h false s with
      | .ok s' => execActions s'
          ((rest.map fun h => Action.sub "/error/test" h false) ++
            [Action.pub "/error/test" []])
      | .error _ => s) = _
    rw [subAddCore_c7]
    dsimp only
    rw [ih]
    refine congrArg (pubStart "/error/test" []) ?_
    simp [c7Subs, c7SubLog, List.append_assoc, PSState.mk.injEq]
    try omega

lemma c7_state1 (hs : List HandlerSpec) :
    execActions initState (c7Actions hs) =
      { subs := c7Subs hs 0, inflightCount := 1,
        queue := [.pubCont 0 "/error/test" []], pending := [],
        log := c7SubLog hs 0 ++ [.pubStarted 0],
        nextSubId := hs.length, nextPubId := 1 } := by
  rw [c7_exec hs initState]
  simp [initState, pubStart]

lemma c7_state2 (h0 : HandlerSpec) (rest : List HandlerSpec) :
    step (execActions initState (c7Actions (h0 :: rest))) =
      { subs := c7Subs (h0 :: rest) 0, inflightCount := 1,
        queue := ((c7Subs (h0 :: rest) 0).map fun sub =>
            (⟨sub, true, some [], some []⟩ : SubscriptionMatch)).map
          (fun m => Task.dispatch 0 m "/error/test" []),
        pending := [(0, (h0 :: rest).length)],
        log := (c7SubLog (h0 :: rest) 0 ++ [.pubStarted 0]) ++
          [.pubMatched 0 (List.range' 0 (h0 :: rest).length)],
        nextSubId := (h0 :: rest).length, nextPubId := 1 } := by
  rw [c7_state1]
  show runTask _ (Task.pubCont 0 "/error/test" []) = _
  unfold runTask
  dsimp only
  rw [c7_filterSubs]
  dsimp only
  rw [if_neg (by rw [c7Subs]; simp)]
  rw [c7Subs_ids]
  simp [c7Subs_length]

/-- C7: in any one-block program that registers `n` subscriptions on the
topic `/error/test` — with arbitrary handler behaviours, throwing ones
included — and then publishes that topic once, every one of the `n`
handlers is invoked exactly once, the publication settles (`pubDone`), and
the publication never rejects (`pubThrew` is never logged): one handler's
failure neither prevents the other handlers from running nor propagates out
of `pub`. -/
theorem C7_handler_error_isolation (hs : List HandlerSpec) (hn : hs ≠ []) :
    (∀ i < hs.length, countInvokedFor i 0
        (execProgram [c7Actions hs] (2 * hs.length + 1)).log = 1) ∧
    Event.pubDone 0 ∈ (execProgram [c7Actions hs] (2 * hs.length + 1)).log ∧
    Event.pubThrew 0 ∉ (execProgram [c7Actions hs] (2 * hs.length + 1)).log := by
  obtain ⟨h0, rest, rfl⟩ : ∃ h0 r, hs = h0 :: r := by
    cases hs with
    | nil => exact absurd rfl hn
    | cons a b => exact ⟨a, b, rfl⟩
  have hinv : Inv (execProgram [c7Actions (h0 :: rest)] (2 * (h0 :: rest).length + 1)) :=
    inv_execProgram _ _
  have hexec : execProgram [c7Actions (h0 :: rest)] (2 * (h0 :: rest).length + 1) =
      runSched (2 * (h0 :: rest).length)
        (step (execActions initState (c7Actions (h0 :: rest)))) := rfl
  set s2 := step (execActions initState (c7Actions (h0 :: rest))) with hs2
  have h2 := c7_state2 h0 rest
  rw [← hs2] at h2
  -- the queue after the snapshot holds only dispatch tasks
  have hnp : ∀ t ∈ s2.queue, isPubContT t = false := by
    rw [h2]
    intro t ht
    simp only [List.map_map, List.mem_map] at ht
    obtain ⟨sub, hsub, rfl⟩ := ht
    rfl
  have hmeasure : queueMeasure s2.queue ≤ 2 * (h0 :: rest).length := by
    rw [h2]
    simp only [queueMeasure]
    have h1 : (((c7Subs (h0 :: rest) 0).map fun sub =>
        (⟨sub, true, some [], some []⟩ : SubscriptionMatch)).map
          (fun m => Task.dispatch 0 m "/error/test" [])).length
        = (h0 :: rest).length := by simp [c7Subs_length]
    have hc : (((c7Subs (h0 :: rest) 0).map fun sub =>
        (⟨sub, true, some [], some []⟩ : SubscriptionMatch)).map
          (fun m => Task.dispatch 0 m "/error/test" [])).countP isDispatchT
        ≤ (((c7Subs (h0 :: rest) 0).map fun sub =>
        (⟨sub, true, some [], some []⟩ : SubscriptionMatch)).map
          (fun m => Task.dispatch 0 m "/error/test" [])).length :=
      List.countP_le_length isDispatchT
    omega
  have hqF : (execProgram [c7Actions (h0 :: rest)] (2 * (h0 :: rest).length + 1)).queue
      = [] := by
    rw [hexec]
    exact runSched_drain _ s2 hnp hmeasure
  have hmF : matchedSids 0
      (execProgram [c7Actions (h0 :: rest)] (2 * (h0 :: rest).length + 1)).log
      = some (List.range' 0 (h0 :: rest).length) := by
    rw [hexec]
    apply matchedSids_runSched
    rw [h2]
    simp only
    rw [matchedSids_append]
    rw [matchedSids_append, c7SubLog_matchedSids]
    rfl
  set F := execProgram [c7Actions (h0 :: rest)] (2 * (h0 :: rest).length + 1) with hF
  have hlt : 0 < F.nextPubId := matchedSids_lt hinv hmF
  have hph := hinv.phase 0 hlt
  unfold PubPhase at hph
  rw [hmF] at hph
  dsimp only at hph
  obtain ⟨hpc, hthrew, hrest⟩ := hph
  by_cases hdone : Event.pubDone 0 ∈ F.log
  · rw [if_pos hdone] at hrest
    obtain ⟨_, _, _, hcounts⟩ := hrest
    refine ⟨?_, hdone, hthrew⟩
    intro i hi
    rw [hcounts i]
    exact List.count_eq_one_of_mem (List.nodup_range' 0 (h0 :: rest).length) (by
      rw [List.mem_range'_1]
      omega)
  · rw [if_neg hdone] at hrest
    obtain ⟨hp1, hp2, _⟩ := hrest
    rw [hqF] at hp2
    simp [dispatchCountFor] at hp2
/-! ## Claim theorems: the dispatcher -/

/-- C7 witness: the isolation property at a concrete program whose first
handler rejects. -/
theorem C7_handler_error_isolation_witness :
    (([HandlerSpec.throwing, HandlerSpec.immediate] : List HandlerSpec) ≠ []) ∧
    ((∀ i < ([HandlerSpec.throwing, HandlerSpec.immediate] : List HandlerSpec).length,
        countInvokedFor i 0
          (execProgram [c7Actions [HandlerSpec.throwing, HandlerSpec.immediate]]
            (2 * ([HandlerSpec.throwing, HandlerSpec.immediate] :
              List HandlerSpec).length + 1)).log = 1) ∧
      Event.pubDone 0 ∈
        (execProgram [c7Actions [HandlerSpec.throwing, HandlerSpec.immediate]]
          (2 * ([HandlerSpec.throwing, HandlerSpec.immediate] :
            List HandlerSpec).length + 1)).log ∧
      Event.pubThrew 0 ∉
        (execProgram [c7Actions [HandlerSpec.throwing, HandlerSpec.immediate]]
          (2 * ([HandlerSpec.throwing, HandlerSpec.immediate] :
            List HandlerSpec).length + 1)).log) :=
  ⟨by decide,
    C7_handler_error_isolation [HandlerSpec.throwing, HandlerSpec.immediate] (by decide)⟩

/-- C1 (counterexample): with a single subscription whose handler settles
one tick later, the publication's `pubDone` is logged strictly before the
handler's `settledOk`: `pub`'s promise settles although a matching
handler's awaitable has not. -/
theorem C1_counterexample :
    Event.settledOk 0 0 ∈ (execProgram [[Action.sub "/t" HandlerSpec.afterTick false,
      Action.pub "/t" []]] 3).log ∧
    Event.pubDone 0 ∈ (execProgram [[Action.sub "/t" HandlerSpec.afterTick false,
      Action.pub "/t" []]] 3).log ∧
    (execProgram [[Action.sub "/t" HandlerSpec.afterTick false,
        Action.pub "/t" []]] 3).log.indexOf (Event.pubDone 0) <
      (execProgram [[Action.sub "/t" HandlerSpec.afterTick false,
        Action.pub "/t" []]] 3).log.indexOf (Event.settledOk 0 0) := by
  decide

/-- C1 (amended): the promise returned by `pub` settles only after every
snapshotted handler has been *invoked* (its dispatch closure resolved), not
after it has settled: when `pubDone pid` is logged, the invocation counts
equal the snapshot exactly. -/
theorem C1_done_implies_all_invoked (phases : List (List Action)) (fuel : Nat)
    (pid : Nat) (sids : List Nat)
    (hm : matchedSids pid (execProgram phases fuel).log = some sids)
    (hd : Event.pubDone pid ∈ (execProgram phases fuel).log) :
    countInvokedP pid (execProgram phases fuel).log = sids.length ∧
    ∀ sid, countInvokedFor sid pid (execProgram phases fuel).log = sids.count sid := by
  have hinv := inv_execProgram phases fuel
  have hlt := matchedSids_lt hinv hm
  have hph := hinv.phase pid hlt
  unfold PubPhase at hph
  rw [hm] at hph
  dsimp only at hph
  obtain ⟨_, _, hrest⟩ := hph
  rw [if_pos hd] at hrest
  exact ⟨hrest.2.2.1, hrest.2.2.2⟩

/-- C1 witness: the amended property at a concrete one-subscription
program. -/
theorem C1_done_implies_all_invoked_witness :
    (matchedSids 0 (execProgram [[Action.sub "/t" HandlerSpec.immediate false,
        Action.pub "/t" []]] 3).log = some [0] ∧
      Event.pubDone 0 ∈ (execProgram [[Action.sub "/t" HandlerSpec.immediate false,
        Action.pub "/t" []]] 3).log) ∧
    (countInvokedP 0 (execProgram [[Action.sub "/t" HandlerSpec.immediate false,
        Action.pub "/t" []]] 3).log = [0].length ∧
      ∀ sid, countInvokedFor sid 0 (execProgram [[Action.sub "/t" HandlerSpec.immediate false,
        Action.pub "/t" []]] 3).log = [0].count sid) :=
  ⟨⟨by decide, by decide⟩,
    C1_done_implies_all_invoked [[Action.sub "/t" HandlerSpec.immediate false,
      Action.pub "/t" []]] 3 0 [0] (by decide) (by decide)⟩

/-- C2: `_inflightCount` is incremented synchronously by `pub` before its
first suspension point, and throughout every run it equals the number of
publications that have started minus the number that have settled — so it
returns to its pre-publish value after every completed `pub`, and while `N`
publications overlap it is exactly (hence at least) `N`. -/
theorem C2_inflight_counter (phases : List (List Action)) (fuel : Nat)
    (topic : String) (args : Args) (s₀ : PSState) :
    (pubStart topic args s₀).inflightCount = s₀.inflightCount + 1 ∧
    (execProgram phases fuel).inflightCount =
      (countStarts (execProgram phases fuel).log : Int)
        - (countDones (execProgram phases fuel).log : Int) :=
  ⟨rfl, (inv_execProgram phases fuel).inflightEq⟩

/-- C3 (counterexample): a subscription registered in the same synchronous
block *after* the `pub` call is delivered to — the snapshot is only taken
at `pub`'s first tick, after the caller's synchronous continuation ran — so
the claimed exclusion does not hold. -/
theorem C3_counterexample :
    countInvokedFor 0 0 (execProgram [[Action.pub "/t" [],
      Action.sub "/t" HandlerSpec.immediate false]] 3).log = 1 := by
  decide

/-- C3 (amended): only subscriptions in a publication's snapshot are ever
delivered to: a subscription id outside `matchedSids` — in particular one
registered after the snapshot was frozen — is never invoked by that
publication. -/
theorem C3_snapshot_only (phases : List (List Action)) (fuel : Nat)
    (pid sid : Nat) (sids : List Nat)
    (hm : matchedSids pid (execProgram phases fuel).log = some sids)
    (hs : sid ∉ sids) :
    countInvokedFor sid pid (execProgram phases fuel).log = 0 := by
  have hinv := inv_execProgram phases fuel
  have hlt := matchedSids_lt hinv hm
  have hph := hinv.phase pid hlt
  unfold PubPhase at hph
  rw [hm] at hph
  dsimp only at hph
  obtain ⟨_, _, hrest⟩ := hph
  have hcz : sids.count sid = 0 := List.count_eq_zero_of_not_mem hs
  by_cases hd : Event.pubDone pid ∈ (execProgram phases fuel).log
  · rw [if_pos hd] at hrest
    rw [hrest.2.2.2 sid, hcz]
  · rw [if_neg hd] at hrest
    have := hrest.2.2.2 sid
    omega

/-- C3 witness: the amended property at a concrete program whose
subscription does not match the published topic. -/
theorem C3_snapshot_only_witness :
    (matchedSids 0 (execProgram [[Action.sub "/a" HandlerSpec.immediate false,
        Action.pub "/t" []]] 2).log = some [] ∧
      (0 : Nat) ∉ ([] : List Nat)) ∧
    countInvokedFor 0 0 (execProgram [[Action.sub "/a" HandlerSpec.immediate false,
      Action.pub "/t" []]] 2).log = 0 :=
  ⟨⟨by decide, by decide⟩,
    C3_snapshot_only [[Action.sub "/a" HandlerSpec.immediate false,
      Action.pub "/t" []]] 2 0 0 [] (by decide) (by decide)⟩

/-- C4 (counterexample): a `once` subscription is invoked twice when two
publications of its topic are issued in the same synchronous block — both
take their snapshot before the first dispatch removes the subscription — so
"at most once across the lifetime of the process" does not hold. -/
theorem C4_counterexample :
    countInvokedFor 0 0 (execProgram [[Action.sub "/t" HandlerSpec.immediate true,
      Action.pub "/t" [], Action.pub "/t" []]] 4).log = 1 ∧
    countInvokedFor 0 1 (execProgram [[Action.sub "/t" HandlerSpec.immediate true,
      Action.pub "/t" [], Action.pub "/t" []]] 4).log = 1 := by
  decide

/-- C4 (amended): what the registry does guarantee is per-publication: no
publication ever invokes the same subscription more than once, because each
snapshot is duplicate-free; a `once` subscription can still be fired once
by *each* publication whose snapshot preceded its removal. -/
theorem C4_at_most_once_per_publication (phases : List (List Action)) (fuel : Nat)
    (sid pid : Nat) :
    countInvokedFor sid pid (execProgram phases fuel).log ≤ 1 := by
  have hinv := inv_execProgram phases fuel
  by_cases hlt : pid < (execProgram phases fuel).nextPubId
  · have hph := hinv.phase pid hlt
    unfold PubPhase at hph
    cases hm : matchedSids pid (execProgram phases fuel).log with
    | none =>
      rw [hm] at hph
      dsimp only at hph
      have h0 := @countInvokedFor_zero sid pid _ hph.2.2.1
      omega
    | some sids =>
      rw [hm] at hph
      dsimp only at hph
      obtain ⟨_, _, hrest⟩ := hph
      have hnd : sids.Nodup := hinv.sidsNodup pid sids (matchedSids_mem hm)
      have hcle : sids.count sid ≤ 1 := List.nodup_iff_count_le_one.1 hnd sid
      by_cases hd : Event.pubDone pid ∈ (execProgram phases fuel).log
      · rw [if_pos hd] at hrest
        rw [hrest.2.2.2 sid]
        exact hcle
      · rw [if_neg hd] at hrest
        have := hrest.2.2.2 sid
        omega
  · have hf := hinv.fresh pid (Nat.le_of_not_lt hlt)
    have h0 := @countInvokedFor_zero sid pid _ (pidFresh_counts hf).2.2.2.2.1
    omega
/-! ## Object-spread precedence: `buildFullArgs` -/

lemma find?_map_overwrite (k : String) (v : Val) : ∀ o : Args,
    o.any (fun p => p.1 = k) = true →
    (o.map fun p => if p.1 = k then (k, v) else p).find? (fun p => p.1 = k)
      = some (k, v) := by
  intro o
  induction o with
  | nil => intro h; simp at h
  | cons p rest ih =>
    intro h
    by_cases hp : p.1 = k
    · simp only [List.map_cons, if_pos hp]
      rw [List.find?_cons_of_pos _ (by simp)]
    · have hrest : rest.any (fun p => p.1 = k) = true := by
        simp only [List.any_cons, hp] at h
        simpa using h
      simp only [List.map_cons, if_neg hp]
      rw [List.find?_cons_of_neg _ (by simpa using hp)]
      exact ih hrest

lemma find?_map_overwrite_other {k k' : String} (h : k' ≠ k) (v : Val) :
    ∀ o : Args,
    (o.map fun p => if p.1 = k then (k, v) else p).find? (fun p => p.1 = k')
      = o.find? (fun p => p.1 = k') := by
  intro o
  induction o with
  | nil => rfl
  | cons p rest ih =>
    by_cases hp : p.1 = k
    · have hne : ¬ (((k, v) : String × Val).1 = k') := fun hh => h hh.symm
      have hne2 : ¬ (p.1 = k') := fun hh => h (by rw [← hh, hp])
      simp only [List.map_cons, if_pos hp]
      rw [List.find?_cons_of_neg _ (by simpa using hne),
        List.find?_cons_of_neg _ (by simpa using hne2)]
      exact ih
    · simp only [List.map_cons, if_neg hp]
      by_cases hq : p.1 = k'
      · rw [List.find?_cons_of_pos _ (by simpa using hq),
          List.find?_cons_of_pos _ (by simpa using hq)]
      · rw [List.find?_cons_of_neg _ (by simpa using hq),
          List.find?_cons_of_neg _ (by simpa using hq)]
        exact ih

lemma objGet_objSet_self (o : Args) (k : String) (v : Val) :
    objGet (objSet o k v) k = some v := by
  unfold objGet objSet
  by_cases h : o.any (fun p => p.1 = k)
  · rw [if_pos h, find?_map_overwrite k v o h]
    rfl
  · rw [if_neg h, List.find?_append]
    have hnone : o.find? (fun p => p.1 = k) = none := by
      rw [List.find?_eq_none]
      exact fun x hx hxk => h (List.any_eq_true.2 ⟨x, hx, hxk⟩)
    rw [hnone]
    simp [List.find?]

lemma objGet_objSet_other (o : Args) {k k' : String} (h : k' ≠ k) (v : Val) :
    objGet (objSet o k v) k' = objGet o k' := by
  unfold objGet objSet
  by_cases ha : o.any (fun p => p.1 = k)
  · rw [if_pos ha, find?_map_overwrite_other h v o]
  · rw [if_neg ha, List.find?_append]
    have h2 : ([(k, v)] : Args).find? (fun p => p.1 = k') = none := by
      rw [List.find?_eq_none]
      intro x hx
      simp only [List.mem_singleton] at hx
      subst hx
      simpa using fun hh => h hh.symm
    cases hf : o.find? (fun p => p.1 = k') with
    | none => simp [hf, h2]
    | some q => simp [hf]

lemma spreadInto_cons (o : Args) (kv : String × Val) (rest : Args) :
    spreadInto o (kv :: rest) = spreadInto (objSet o kv.1 kv.2) rest := rfl

lemma spreadInto_not_mem (k : String) : ∀ (add o : Args),
    (∀ p ∈ add, p.1 ≠ k) → objGet (spreadInto o add) k = objGet o k := by
  intro add
  induction add with
  | nil => intro o _; rfl
  | cons kv rest ih =>
    intro o h
    rw [spreadInto_cons, ih _ (fun p hp => h p (List.mem_cons_of_mem _ hp))]
    exact objGet_objSet_other o (Ne.symm (h kv (List.mem_cons_self _ _))) kv.2

lemma objGet_none_keys {ps : Args} {k : String} (h : objGet ps k = none) :
    ∀ p ∈ ps, p.1 ≠ k := by
  unfold objGet at h
  cases hf : ps.find? (fun p => p.1 = k) with
  | some q => rw [hf] at h; simp at h
  | none =>
    rw [List.find?_eq_none] at hf
    intro p hp
    simpa using hf p hp

lemma spreadInto_mem (k : String) (v : Val) : ∀ (add o : Args),
    (add.map Prod.fst).Nodup → objGet add k = some v →
    objGet (spreadInto o add) k = some v := by
  intro add
  induction add with
  | nil => intro o _ h; simp [objGet] at h
  | cons kv rest ih =>
    intro o hnd h
    rw [spreadInto_cons]
    by_cases hk : kv.1 = k
    · have hv : kv.2 = v := by
        unfold objGet at h
        rw [List.find?_cons_of_pos _ (by simpa using hk)] at h
        simpa using h
      have hknotin : k ∉ rest.map Prod.fst := by
        rw [List.map_cons] at hnd
        have := (List.nodup_cons.1 hnd).1
        rw [hk] at this
        exact this
      have hrest : ∀ p ∈ rest, p.1 ≠ k := by
        intro p hp hpk
        exact hknotin (hpk ▸ List.mem_map_of_mem Prod.fst hp)
      rw [spreadInto_not_mem k rest _ hrest]
      rw [← hk, ← hv]
      exact objGet_objSet_self o kv.1 kv.2
    · have h' : objGet rest k = some v := by
        unfold objGet at h ⊢
        rw [List.find?_cons_of_neg _ (by simpa using hk)] at h
        exact h
      have hnd' : (rest.map Prod.fst).Nodup := by
        rw [List.map_cons] at hnd
        exact (List.nodup_cons.1 hnd).2
      exact ih _ hnd' h'

lemma objGet_spreadInto_base (u : Args) (k : String)
    (hu : (u.map Prod.fst).Nodup) :
    objGet (spreadInto [] u) k = objGet u k := by
  cases hg : objGet u k with
  | none => rw [spreadInto_not_mem k u [] (objGet_none_keys hg)]; rfl
  | some v => exact spreadInto_mem k v u [] hu hg

/-- C5 (amended): the composition order of `fullArgs` is user args, then
captured params, then the reserved keys: `topic` and `_` are authoritative
(but `topic` carries the *raw* published topic, not its normalization), a
param binding overrides a user key of the same name, and a user key not
captured as a param survives unchanged. -/
theorem C5_arg_precedence (u ps : Args) (w : Option (List String)) (t k : String)
    (v : Val) (hu : (u.map Prod.fst).Nodup) (hps : (ps.map Prod.fst).Nodup)
    (hk1 : k ≠ "_") (hk2 : k ≠ "topic") :
    objGet (buildFullArgs u (some ps) w t) "topic" = some (.str t) ∧
    objGet (buildFullArgs u (some ps) w t) "_" = some (.strList (w.getD [])) ∧
    (objGet ps k = some v → objGet (buildFullArgs u (some ps) w t) k = some v) ∧
    (objGet ps k = none → objGet (buildFullArgs u (some ps) w t) k = objGet u k) := by
  unfold buildFullArgs
  dsimp only
  refine ⟨?_, ?_, ?_, ?_⟩
  · exact objGet_objSet_self _ "topic" (.str t)
  · rw [objGet_objSet_other _ (by decide) (.str t)]
    exact objGet_objSet_self _ "_" (.strList (w.getD []))
  · intro hv
    rw [objGet_objSet_other _ hk2 (.str t), objGet_objSet_other _ hk1
      (.strList (w.getD []))]
    exact spreadInto_mem k v ps _ hps (by simpa using hv)
  · intro hn
    rw [objGet_objSet_other _ hk2 (.str t), objGet_objSet_other _ hk1
      (.strList (w.getD []))]
    have hgd : ((some ps).getD ([] : Args)) = ps := rfl
    rw [hgd, spreadInto_not_mem k ps _ (objGet_none_keys (by simpa using hn))]
    exact objGet_spreadInto_base u k hu

/-- C5 witness: the precedence facts at concrete arguments. -/
theorem C5_arg_precedence_witness :
    (((([("test5", Val.str "v")] : Args).map Prod.fst).Nodup ∧
        ((([("test1", Val.str "a")] : Args).map Prod.fst).Nodup) ∧
        ("test1" : String) ≠ "_" ∧ ("test1" : String) ≠ "topic") ∧
      (objGet (buildFullArgs [("test5", Val.str "v")] (some [("test1", Val.str "a")])
          (some ["c"]) "/arg/A/B") "topic" = some (.str "/arg/A/B") ∧
        objGet (buildFullArgs [("test5", Val.str "v")] (some [("test1", Val.str "a")])
          (some ["c"]) "/arg/A/B") "_" = some (.strList ["c"]) ∧
        (objGet [("test1", Val.str "a")] "test1" = some (Val.str "a") →
          objGet (buildFullArgs [("test5", Val.str "v")] (some [("test1", Val.str "a")])
            (some ["c"]) "/arg/A/B") "test1" = some (Val.str "a")) ∧
        (objGet [("test1", Val.str "a")] "test1" = none →
          objGet (buildFullArgs [("test5", Val.str "v")] (some [("test1", Val.str "a")])
            (some ["c"]) "/arg/A/B") "test1" =
            objGet [("test5", Val.str "v")] "test1"))) :=
  ⟨⟨by decide, by decide, by decide, by decide⟩,
    C5_arg_precedence [("test5", Val.str "v")] [("test1", Val.str "a")] (some ["c"])
      "/arg/A/B" "test1" (Val.str "a") (by decide) (by decide) (by decide) (by decide)⟩

/-- C5 (counterexample): in the spec's own example the handler receives the
*raw* published topic `/arg/A/B/C/D`, not the claimed normalized
`/arg/a/b/c/d`: the unique invocation of the run carries exactly these
arguments. -/
theorem C5_counterexample :
    Event.invoked 0 0 [("test5", Val.str "v"), ("test1", Val.str "a"),
        ("test2", Val.str "b"), ("_", Val.strList ["c", "d"]),
        ("topic", Val.str "/arg/A/B/C/D")] ∈
      (execProgram [[Action.sub "/arg/:test1/:test2/**" HandlerSpec.immediate false,
        Action.pub "/arg/A/B/C/D" [("test5", Val.str "v")]]] 3).log ∧
    countInvokedP 0
      (execProgram [[Action.sub "/arg/:test1/:test2/**" HandlerSpec.immediate false,
        Action.pub "/arg/A/B/C/D" [("test5", Val.str "v")]]] 3).log = 1 ∧
    objGet [("test5", Val.str "v"), ("test1", Val.str "a"),
        ("test2", Val.str "b"), ("_", Val.strList ["c", "d"]),
        ("topic", Val.str "/arg/A/B/C/D")] "topic" ≠ some (Val.str "/arg/a/b/c/d") := by
  decide
/-! ## The per-subscription memo is never written -/

lemma memoClean_subAdd {pat : String} {hspec : HandlerSpec} {once : Bool}
    {s s' : PSState} (hk : subAddCore pat hspec once s = .ok s')
    (hc : ∀ sub ∈ s.subs, sub.matchedTopics = []) :
    ∀ sub ∈ s'.subs, sub.matchedTopics = [] := by
  obtain ⟨_, _, _, _, _, _, bm, hsubs⟩ := subAddCore_spec hk
  rw [hsubs]
  intro sub hsub
  rcases List.mem_append.1 hsub with h1 | h1
  · exact hc sub h1
  · simp only [List.mem_singleton] at h1
    subst h1
    rfl

lemma memoClean_runHandler (h : HandlerSpec) (sid pid : Nat) (s : PSState)
    (hc : ∀ sub ∈ s.subs, sub.matchedTopics = []) :
    ∀ sub ∈ (runHandler h sid pid s).subs, sub.matchedTopics = [] := by
  cases h with
  | immediate => exact hc
  | afterTick => exact hc
  | throwing => exact hc
  | subscribing pat =>
    cases hk : subAddCore pat .immediate false s with
    | ok s' =>
      intro sub hsub
      simp only [runHandler, hk] at hsub
      exact memoClean_subAdd hk hc sub hsub
    | error e =>
      intro sub hsub
      simp only [runHandler, hk] at hsub
      exact hc sub hsub

lemma runTask_pubCont_subs (s : PSState) (pid : Nat) (topic : String) (args : Args) :
    (runTask s (.pubCont pid topic args)).subs = s.subs := by
  show (match filterSubs s.subs topic with
    | .error _ => _
    | .ok ms => _ : PSState).subs = s.subs
  cases hf : filterSubs s.subs topic with
  | error e => rfl
  | ok ms => by_cases he : ms.isEmpty <;> simp [he]

lemma memoClean_runTask (s : PSState) (t : Task)
    (hc : ∀ sub ∈ s.subs, sub.matchedTopics = []) :
    ∀ sub ∈ (runTask s t).subs, sub.matchedTopics = [] := by
  cases t with
  | pubCont pid topic args =>
    intro sub hsub
    rw [runTask_pubCont_subs] at hsub
    exact hc sub hsub
  | dispatch pid m topic args =>
    show ∀ sub ∈ (finishDispatch pid _).subs, _
    intro sub hsub
    rw [(finishDispatch_frame pid _).2.1] at hsub
    by_cases ho : m.subscription.once
    · rw [if_pos ho] at hsub
      dsimp only at hsub
      have hsub2 := (List.mem_filter.1 hsub).1
      exact memoClean_runHandler m.subscription.handler m.subscription.id pid
        { s with log := s.log ++ [Event.invoked m.subscription.id pid
          (buildFullArgs args m.params m.wildcard topic)] } hc sub hsub2
    · rw [if_neg ho] at hsub
      exact memoClean_runHandler m.subscription.handler m.subscription.id pid
        { s with log := s.log ++ [Event.invoked m.subscription.id pid
          (buildFullArgs args m.params m.wildcard topic)] } hc sub hsub
  | handlerCont sid pid => exact hc

lemma memoClean_step (s : PSState)
    (hc : ∀ sub ∈ s.subs, sub.matchedTopics = []) :
    ∀ sub ∈ (step s).subs, sub.matchedTopics = [] := by
  unfold step
  cases hq : s.queue with
  | nil => exact hc
  | cons t rest => exact memoClean_runTask { s with queue := rest } t hc

lemma memoClean_runSched (n : Nat) : ∀ s : PSState,
    (∀ sub ∈ s.subs, sub.matchedTopics = []) →
    ∀ sub ∈ (runSched n s).subs, sub.matchedTopics = [] := by
  induction n with
  | zero => intro s hc; exact hc
  | succ k ih => intro s hc; exact ih (step s) (memoClean_step s hc)

lemma memoClean_execActions (acts : List Action) : ∀ s : PSState,
    (∀ sub ∈ s.subs, sub.matchedTopics = []) →
    ∀ sub ∈ (execActions s acts).subs, sub.matchedTopics = [] := by
  induction acts with
  | nil => intro s hc; exact hc
  | cons a rest ih =>
    intro s hc
    cases a with
    | sub pat hspec once =>
      show ∀ sub ∈ (match subAddCore pat hspec once s with
        | .ok s' => execActions s' rest
        | .error _ => s).subs, _
      cases hk : subAddCore pat hspec once s with
      | ok s' => exact ih s' (memoClean_subAdd hk hc)
      | error e => exact hc
    | pub topic args => exact ih (pubStart topic args s) hc

/-- C6: contrary to the spec, the per-subscription memo is *never* written:
after any program whatsoever, every subscription's `matchedTopics` store is
still empty — `filterSubs` reads the memo but no code path stores a match
result into it, so the same topic is re-matched on every publication. -/
theorem C6_memo_never_written (phases : List (List Action)) (fuel : Nat) :
    ((execProgram phases fuel).subs.map Subscription.matchedTopics).all
      List.isEmpty = true := by
  have hmc : ∀ sub ∈ (execProgram phases fuel).subs, sub.matchedTopics = [] := by
    suffices hgen : ∀ s, (∀ sub ∈ s.subs, sub.matchedTopics = []) →
        ∀ sub ∈ (phases.foldl (fun s acts =>
          runSched fuel (execActions s acts)) s).subs, sub.matchedTopics = [] by
      exact hgen initState (by intro sub hsub; simp [initState] at hsub)
    induction phases with
    | nil => intro s hc; exact hc
    | cons acts rest ih =>
      intro s hc
      exact ih _ (memoClean_runSched fuel _ (memoClean_execActions acts s hc))
  rw [List.all_eq_true]
  intro l hl
  rw [List.mem_map] at hl
  obtain ⟨sub, hsub, rfl⟩ := hl
  simp [hmc sub hsub]

/-! ## Claim theorems: the pattern matcher -/

/-- C8 witness: the path-normalization facts at a concrete pattern and
candidate. -/
theorem C8_match_result_path_witness :
    (BasePathMatcher.construct "/error/test" = .ok c7Matcher ∧
      c7Matcher.matchPath "/x" = .ok ⟨"/x", [], [], false⟩) ∧
    ((⟨"/x", [], [], false⟩ : PathMatchResult).path = normalizePath "/x" ∧
      ((⟨"/x", [], [], false⟩ : PathMatchResult).matched = false →
        (⟨"/x", [], [], false⟩ : PathMatchResult).params = [] ∧
        (⟨"/x", [], [], false⟩ : PathMatchResult).wildcard = [])) :=
  ⟨⟨rfl, rfl⟩,
    C8_match_result_path "/error/test" c7Matcher "/x" ⟨"/x", [], [], false⟩ rfl rfl⟩

/-- C9 (counterexample): a pattern with an unterminated bracket in a
non-parameter segment is *accepted* by the constructor — `/*[a-z` and
`/[a-z` both compile without an error, the bracket silently becoming part
of a static segment — contradicting the claimed fail-fast behaviour. -/
theorem C9_counterexample :
    isOkE (BasePathMatcher.construct "/*[a-z") = true ∧
    isOkE (BasePathMatcher.construct "/[a-z") = true := by
  decide

/-- C9 (amended): construction does fail fast on an empty segment, a
missing parameter name after `:`, an unterminated bracket *in a parameter
segment*, an unknown suffix, and a duplicate parameter name — and an
accepted pattern's parameter names are duplicate-free — but an unterminated
bracket in a wildcard or plain segment is accepted as a static segment. -/
theorem C9_fail_fast (s : String) (hts : jsTrim s = "") (p : String)
    (bm : BasePathMatcher) (hc : BasePathMatcher.construct p = .ok bm) :
    isOkE (parseSegment s) = false ∧
    (paramNames bm.matchers).Nodup ∧
    isOkE (BasePathMatcher.construct "") = false ∧
    isOkE (BasePathMatcher.construct "/:") = false ∧
    isOkE (BasePathMatcher.construct "/:x[a-z") = false ∧
    isOkE (BasePathMatcher.construct "/:x[a-z]!") = false ∧
    isOkE (BasePathMatcher.construct "/users/:id/:id") = false :=
  ⟨empty_segment_errors s hts, construct_paramNames_nodup p bm hc,
    by decide, by decide, by decide, by decide, by decide⟩

/-- C9 witness: the fail-fast facts at a concrete blank segment and a
concrete accepted pattern. -/
theorem C9_fail_fast_witness :
    (jsTrim " " = "" ∧ BasePathMatcher.construct "/error/test" = .ok c7Matcher) ∧
    (isOkE (parseSegment " ") = false ∧
      (paramNames c7Matcher.matchers).Nodup ∧
      isOkE (BasePathMatcher.construct "") = false ∧
      isOkE (BasePathMatcher.construct "/:") = false ∧
      isOkE (BasePathMatcher.construct "/:x[a-z") = false ∧
      isOkE (BasePathMatcher.construct "/:x[a-z]!") = false ∧
      isOkE (BasePathMatcher.construct "/users/:id/:id") = false) :=
  ⟨⟨by decide, rfl⟩, C9_fail_fast " " (by decide) "/error/test" c7Matcher rfl⟩

/-- C10 (counterexample): the constructor accepts the pattern `/[z-a]`
whose class body is a reversed range, and `match` then throws on the
candidate `/x` when it builds the regular expression from the stored class
body — match failure is not always reported via `matched = false`. -/
theorem C10_counterexample :
    isOkE (BasePathMatcher.construct "/[z-a]") = true ∧
    isOkE (c10Matcher.matchPath "/x") = false := by
  decide

/-- C10 witness: totality of `match` at a concrete accepted pattern with a
well-formed class body. -/
theorem C10_match_total_on_valid_ranges_witness :
    (BasePathMatcher.construct "/error/test" = .ok c7Matcher ∧
      validRanges c7Matcher = true) ∧
    isOkE (c7Matcher.matchPath "/x") = true :=
  ⟨⟨rfl, by decide⟩,
    C10_match_total_on_valid_ranges "/error/test" c7Matcher rfl (by decide) "/x"⟩
end Basef
